import Mathlib

/-!
Verification of the DAION build orchestrator.

Shallow embedding of the orchestrator in `src/App.tsx` and of the
collaborator-service layer in `src/services/geminiService.ts`
(types from `src/types.ts`).

Modelling conventions, fixed once here:

* Each collaborator call is a single suspending network round trip.  Its raw
  outcome is supplied by an environment `Env` (one field per service entry
  point, indexed by call order where a call site is reached repeatedly).
  `Except String α` models a promise that either resolves (`ok`) or rejects
  (`error msg`); `Option String` models the `response.text` field, which the
  service may omit.
* The app is single-threaded: the user's STOP click can only run while the
  orchestrator is suspended at an `await`.  `Env.stopDuring = some n` means
  the user clicked STOP while the orchestrator was suspended at its `n`-th
  await (0-based); at that point `handleStop` runs: it sets the shared abort
  flag, appends the warning log "Process termination requested by user." and
  sets the status to STOPPED.  `checkAbort` reads the flag and throws the
  cancellation error "Process stopped by user".
* `LogEntry` drops the random `id` and the wall-clock `timestamp` of the
  source (pure noise for every claim); `Message` drops `timestamp` likewise.
* React `setState(prev => ...)` functional updates are modelled as functions
  on the live `AppState`; a handler's captured render snapshot (the stale
  closure over `state`) is passed explicitly as a `snapshot` argument where
  the source reads the closed-over `state` rather than `prev`.
-/

/-- `AgentStatus` from `src/types.ts`. -/
inductive AgentStatus where
  | IDLE
  | PLANNING
  | CODING
  | TESTING
  | REFINING
  | COMPLETED
  | FAILED
  | STOPPED
deriving Repr, DecidableEq

/-- The `status` field of `ProjectFile` from `src/types.ts`. -/
inductive FileStatus where
  | pending
  | created
  | verified
  | buggy
deriving Repr, DecidableEq

/-- `ProjectFile` from `src/types.ts`. -/
structure ProjectFile where
  name : String
  language : String
  content : String
  status : FileStatus
deriving Repr, DecidableEq

/-- `TestResult` from `src/types.ts`. -/
structure TestResult where
  id : String
  testName : String
  passed : Bool
  message : String
deriving Repr, DecidableEq

/-- The `type` field of `LogEntry` from `src/types.ts`. -/
inductive Severity where
  | info
  | success
  | warning
  | error
  | system
deriving Repr, DecidableEq

/-- `LogEntry` from `src/types.ts`, without the random `id` and the clock
`timestamp`. -/
structure LogEntry where
  message : String
  type : Severity
deriving Repr, DecidableEq

/-- The `vibeCheck` object returned by `runAutonomousTests`
(`src/services/geminiService.ts`). -/
structure VibeCheck where
  degraded : Bool
  reason : String
deriving Repr, DecidableEq

/-- The value `runAutonomousTests` resolves with. -/
structure Analysis where
  results : List TestResult
  qualityScore : Int
  vibeCheck : VibeCheck
deriving Repr, DecidableEq

/-- `ChartDataPoint` from `src/types.ts`. -/
structure ChartDataPoint where
  iteration : Nat
  quality : Int
  bugs : Nat
deriving Repr, DecidableEq

/-- The `role` field of `Message` from `src/types.ts`. -/
inductive Role where
  | user
  | agent
deriving Repr, DecidableEq

/-- `Message` from `src/types.ts`, without the clock `timestamp`. -/
structure Message where
  role : Role
  text : String
deriving Repr, DecidableEq

/-- `ProjectState` from `src/types.ts`. -/
structure ProjectState where
  name : String
  description : String
  files : List ProjectFile
  testResults : List TestResult
  qualityScore : Int
  iteration : Nat
  logs : List LogEntry
  status : AgentStatus
  generatedArtifacts : List String
  report : Option String
deriving Repr, DecidableEq

/-- The three pieces of React component state of `App`
(`src/App.tsx`: `state`, `messages`, `metricsData`). -/
structure AppState where
  state : ProjectState
  messages : List Message
  metricsData : List ChartDataPoint
deriving Repr, DecidableEq

/-- JS `array[i] = a` on a copy: replace the element at index `i`
(out-of-range indices leave the list unchanged). -/
def listSet {α : Type _} : List α → Nat → α → List α
  | [], _, _ => []
  | _ :: xs, 0, a => a :: xs
  | x :: xs, Nat.succ n, a => x :: listSet xs n a

/-- JS `Array.prototype.findIndex`, returning `none` for `-1`. -/
def findIdxO {α : Type _} (p : α → Bool) : List α → Option Nat
  | [] => none
  | a :: l => if p a then some 0 else (findIdxO p l).map (fun n => n + 1)

/-- `newFiles[idx] = { ...newFiles[idx], content }` on a copy
(`refineProject`, `src/services/geminiService.ts` line 263). -/
def updateContentAt : List ProjectFile → Nat → String → List ProjectFile
  | [], _, _ => []
  | f :: fs, 0, c => { f with content := c } :: fs
  | f :: fs, Nat.succ n, c => f :: updateContentAt fs n c

/-- Consume `[a-z]*\n` after an opening fence: letters until a newline,
failing on anything else (the `[a-z]*\n` tail of the regex
`^` + three backticks + `[a-z]*\n` with the `i` flag). -/
def dropFenceHead : List Char → Option (List Char)
  | [] => none
  | c :: cs => if c = '\n' then some cs else if c.isAlpha then dropFenceHead cs else none

/-- JS `text.replace(/^xxx[a-z]*\n/i, '')` where `xxx` is three backticks. -/
def stripLeadingFence (s : String) : String :=
  if s.startsWith "```" then
    match dropFenceHead (s.toList.drop 3) with
    | some cs => String.mk cs
    | none => s
  else s

/-- JS `text.replace(/\nxxx$/, '')` where `xxx` is three backticks. -/
def stripTrailingFence (s : String) : String :=
  if s.endsWith "\n```" then String.mk (s.toList.take (s.toList.length - 4)) else s

/-- The two markdown-fence strips applied by `generateFileContent` and
`refactorCode` (`src/services/geminiService.ts` lines 89, 191). -/
def stripFences (s : String) : String := stripTrailingFence (stripLeadingFence s)

/-- The parsed JSON value `generateProjectPlan` resolves with. -/
structure Plan where
  files : List ProjectFile
  planSummary : String
deriving Repr, DecidableEq

/-- The parsed JSON value of a `runAutonomousTests` response, before the
orchestrator-side normalisation (ids added, missing `vibeCheck` defaulted). -/
structure RawAnalysis where
  results : List TestResult
  qualityScore : Int
  vibeCheck : Option VibeCheck
deriving Repr, DecidableEq

/-- One element of `changedFiles` in a `refineProject` response. -/
structure ChangedFile where
  name : String
  content : String
  language : String
deriving Repr, DecidableEq

/-- `generateFileContent` (`src/services/geminiService.ts` lines 63-95):
on any rejection, absorb the error and return the placeholder comment;
otherwise `response.text || ""` with markdown fences stripped. -/
def generateFileContent (filename : String) (raw : Except String (Option String)) : String :=
  match raw with
  | Except.error _ => "// Error generating content for " ++ filename
  | Except.ok t => stripFences (t.getD "")

/-- `data.results.map((r, idx) => ({...r, id: test-idx}))`
(`src/services/geminiService.ts` line 161). -/
def withIds (rs : List TestResult) : List TestResult :=
  rs.enum.map (fun p => { p.2 with id := "test-" ++ toString p.1 })

/-- `runAutonomousTests` (`src/services/geminiService.ts` lines 97-173):
on any rejection (including a missing response), absorb the error and return
the zero-score, non-degraded empty result; otherwise normalise ids and
default a missing `vibeCheck`. -/
def runAutonomousTests (raw : Except String RawAnalysis) : Analysis :=
  match raw with
  | Except.error _ => ⟨[], 0, ⟨false, "Error running checks"⟩⟩
  | Except.ok d => ⟨withIds d.results, d.qualityScore, d.vibeCheck.getD ⟨false, "Stable"⟩⟩

/-- `refactorCode` (`src/services/geminiService.ts` lines 175-193): a
rejection propagates; otherwise `response.text || file.content` with fences
stripped. -/
def refactorCode (file : ProjectFile) (raw : Except String (Option String)) : Except String String :=
  match raw with
  | Except.error e => Except.error e
  | Except.ok t =>
      Except.ok (stripFences (match t with
        | some str => if str = "" then file.content else str
        | none => file.content))

/-- The content `refactorCode` resolves with when its call resolves (the
`Except.ok` branch of `refactorCode`, as a plain function). -/
def refactorOkContent (raw : Except String (Option String)) (file : ProjectFile) : String :=
  match raw with
  | Except.error _ => file.content
  | Except.ok t =>
      stripFences (match t with
        | some str => if str = "" then file.content else str
        | none => file.content)

/-- `generateFinalReport` (`src/services/geminiService.ts` lines 195-212): a
rejection propagates; otherwise `response.text || "Report generation
failed."`. -/
def generateFinalReport (raw : Except String (Option String)) : Except String String :=
  match raw with
  | Except.error e => Except.error e
  | Except.ok t =>
      Except.ok (match t with
        | some str => if str = "" then "Report generation failed." else str
        | none => "Report generation failed.")

/-- One step of the merge loop of `refineProject`
(`src/services/geminiService.ts` lines 260-267): overwrite the content of the
first artifact with the changed file's name, or append a new artifact with
status `created`. -/
def mergeChange (files : List ProjectFile) (change : ChangedFile) : List ProjectFile :=
  match findIdxO (fun f => f.name == change.name) files with
  | some idx => updateContentAt files idx change.content
  | none => files ++ [⟨change.name, change.language, change.content, FileStatus.created⟩]

/-- The whole merge loop of `refineProject` over `data.changedFiles`. -/
def refineMergeFiles (files : List ProjectFile) (changes : List ChangedFile) : List ProjectFile :=
  changes.foldl mergeChange files

/-- `refineProject` (`src/services/geminiService.ts` lines 214-272): a
rejection or missing response propagates as an error; otherwise merge the
changed files into the current artifact list. -/
def refineProject (files : List ProjectFile)
    (raw : Except String (List ChangedFile × String)) :
    Except String (List ProjectFile × String) :=
  match raw with
  | Except.error e => Except.error e
  | Except.ok (changes, explanation) =>
      Except.ok (refineMergeFiles files changes, explanation)

/-- The outcomes of every collaborator call a single dispatch can make, plus
the STOP-click schedule (see the header comment). -/
structure Env where
  planResult : Except String Plan
  genText : Nat → Except String (Option String)
  analyzeRaw : Nat → Except String RawAnalysis
  refactorText : Nat → Except String (Option String)
  reportText : Except String (Option String)
  stopDuring : Option Nat

/-- The running state of one `handleStartMarathon` invocation: the live app
state, the shared abort flag `abortController.current`, the number of awaits
passed, and the per-service call counters indexing into `Env`. -/
structure St where
  app : AppState
  stopped : Bool
  awaits : Nat
  analysisCalls : Nat
  refactorCalls : Nat
deriving Repr, DecidableEq

/-- The two kinds of exception `handleStartMarathon`'s `catch` distinguishes:
the cancellation error thrown by `checkAbort` (its message is compared with
"Process stopped by user") and every other rejection. -/
inductive MErr where
  | stopped
  | service (msg : String)
deriving Repr, DecidableEq

/-- `addLog` (`src/App.tsx` lines 87-97). -/
def pushLog (m : String) (t : Severity) (a : AppState) : AppState :=
  { a with state := { a.state with logs := a.state.logs ++ [⟨m, t⟩] } }

/-- `setMessages(prev => [...prev, msg])`. -/
def pushMsg (r : Role) (t : String) (a : AppState) : AppState :=
  { a with messages := a.messages ++ [⟨r, t⟩] }

/-- `setState(prev => ({ ...prev, status }))`. -/
def setStatus (st : AgentStatus) (a : AppState) : AppState :=
  { a with state := { a.state with status := st } }

/-- `setState(prev => ({ ...prev, files }))`. -/
def setFiles (files : List ProjectFile) (a : AppState) : AppState :=
  { a with state := { a.state with files := files } }

/-- `addLog` lifted to the running state. -/
def logS (m : String) (t : Severity) (s : St) : St :=
  { s with app := pushLog m t s.app }

/-- Pass one await point.  If the STOP click is scheduled during this await,
`handleStop` (`src/App.tsx` lines 155-159) runs while the orchestrator is
suspended: it sets the abort flag, logs the warning and sets status STOPPED. -/
def doAwait (env : Env) (s : St) : St :=
  if env.stopDuring = some s.awaits then
    { s with
      stopped := true,
      app := setStatus AgentStatus.STOPPED
        (pushLog "Process termination requested by user." Severity.warning s.app),
      awaits := s.awaits + 1 }
  else
    { s with awaits := s.awaits + 1 }

/-- `checkAbort` (`src/App.tsx` lines 161-165): throw the cancellation error
when the abort flag is set. -/
def checkAbortM (s : St) : Except (MErr × St) St :=
  if s.stopped then Except.error (MErr.stopped, s) else Except.ok s

/-- `INITIAL_STATE` (`src/App.tsx` lines 25-36). -/
def INITIAL_STATE : ProjectState :=
  { name := ""
    description := ""
    files := []
    testResults := []
    qualityScore := 0
    iteration := 0
    logs := []
    status := AgentStatus.IDLE
    generatedArtifacts := []
    report := none }

/-- `MAX_ITERATIONS` (`src/App.tsx` line 260). -/
def MAX_ITERATIONS : Nat := 3

/-- The opening of `handleStartMarathon` (`src/App.tsx` lines 215-217): the
single `setState` that wholesale-replaces the live project with a fresh one,
the metrics reset, and the acknowledgment agent message. -/
def marathonInit (promptText : String) (prev : AppState) : AppState :=
  { state := { INITIAL_STATE with
      name := "New Project"
      description := promptText
      status := AgentStatus.PLANNING }
    messages := prev.messages ++
      [⟨Role.agent, "Target acquired. Initializing DAION build sequence..."⟩]
    metricsData := [] }

/-- Phase 2 loop of `handleStartMarathon` (`src/App.tsx` lines 240-253), by
remaining-file fuel; `fuel` is `currentFiles.length - i` so the `none` and
`0` fallbacks are never reached.  Per file: checkpoint, log, await the
generation call (await), commit content with status `created`, publish, then
the pacing `setTimeout` (a second await). -/
def codeLoopAux (env : Env) : Nat → List ProjectFile → Nat → St →
    Except (MErr × St) (St × List ProjectFile)
  | 0, current, _, s => Except.ok (s, current)
  | Nat.succ fuel, current, i, s =>
    match checkAbortM s with
    | Except.error e => Except.error e
    | Except.ok s =>
      match current.get? i with
      | none => Except.ok (s, current)
      | some file =>
        let s := logS ("Generating artifact: " ++ file.name ++ "...") Severity.info s
        let s := doAwait env s
        let content := generateFileContent file.name (env.genText i)
        let current' := listSet current i { file with content := content, status := FileStatus.created }
        let s := { s with app := setFiles current' s.app }
        let s := doAwait env s
        codeLoopAux env fuel current' (i + 1) s

/-- Phase 2 of `handleStartMarathon`, from the plan's artifact list. -/
def codeLoop (env : Env) (current : List ProjectFile) (s : St) :
    Except (MErr × St) (St × List ProjectFile) :=
  codeLoopAux env current.length current 0 s

/-- The filter of `src/App.tsx` line 298:
`f.language !== 'json' && f.content.length > 0`. -/
def fixPred (f : ProjectFile) : Bool :=
  (f.language != "json") && decide (0 < f.content.length)

/-- `filesToFix` (`src/App.tsx` lines 298-299): the first 3 artifacts passing
`fixPred`, in file order. -/
def refactorTargets (current : List ProjectFile) : List ProjectFile :=
  (current.filter fixPred).take 3

/-- The refactor loop (`src/App.tsx` lines 301-311).  Per target: checkpoint,
log, await the refactor call (a rejection is fatal), then overwrite the first
artifact of the same name with the refactored content and status `verified`
and publish.  The built `errorContext` only feeds the prompt, hence is not a
parameter here. -/
def refactorLoop (env : Env) :
    List ProjectFile → List ProjectFile → St → Except (MErr × St) (St × List ProjectFile)
  | [], current, s => Except.ok (s, current)
  | file :: rest, current, s =>
    match checkAbortM s with
    | Except.error e => Except.error e
    | Except.ok s =>
      let s := logS ("Refactoring " ++ file.name ++ "...") Severity.info s
      let s := doAwait env s
      let raw := env.refactorText s.refactorCalls
      let s := { s with refactorCalls := s.refactorCalls + 1 }
      match refactorCode file raw with
      | Except.error e => Except.error (MErr.service e, s)
      | Except.ok newContent =>
        match findIdxO (fun f => f.name == file.name) current with
        | some idx =>
          let current' := listSet current idx
            { file with content := newContent, status := FileStatus.verified }
          let s := { s with app := setFiles current' s.app }
          refactorLoop env rest current' s
        | none => refactorLoop env rest current s

/-- A loop-body result of Phase 3: the new running state, artifact list and
`qualityScore` local, tagged below by how the body ended. -/
structure StepRes where
  s : St
  current : List ProjectFile
  qualityScore : Int
deriving Repr, DecidableEq

/-- How one body of the Phase 3 `while` ended: took the refactor branch;
fell through the `else` without breaking; broke with "System stable."; or
broke with "Max iterations reached.". -/
inductive StepOut where
  | refined (r : StepRes)
  | plain (r : StepRes)
  | stable (r : StepRes)
  | exhausted (r : StepRes)
deriving Repr, DecidableEq

/-- Tag the refactor loop's outcome as a completed refactor branch of one
Phase 3 loop body (the `StepOut.refined` constructor applied to `src/App.tsx`
lines 301-311's result). -/
def refineWrap (q : Int) :
    Except (MErr × St) (St × List ProjectFile) → Except (MErr × St) StepOut
  | Except.error e => Except.error e
  | Except.ok (s', current') => Except.ok (StepOut.refined ⟨s', current', q⟩)

/-- The state commits at the head of a loop body's tail (`src/App.tsx`
lines 274-280): append one metrics snapshot and replace test results and
quality score wholesale. -/
def restCommitState (iteration : Nat) (analysis : Analysis) (s : St) : St :=
  let qualityScore := analysis.qualityScore
  let bugCount := (analysis.results.filter (fun r => !r.passed)).length
  let s := { s with app := { s.app with
    metricsData := s.app.metricsData ++ [ChartDataPoint.mk iteration qualityScore bugCount] } }
  { s with app := { s.app with state := { s.app.state with
    testResults := analysis.results, qualityScore := qualityScore } } }

/-- The tail of one Phase 3 loop body after the analysis resolves
(`src/App.tsx` lines 269-320): checkpoint, commit metrics snapshot and
results wholesale, the degraded-vibe warning, then either the refactor
branch or the break checks. -/
def convergeStepRest (env : Env) (current : List ProjectFile) (iteration : Nat)
    (analysis : Analysis) (s : St) : Except (MErr × St) StepOut :=
  match checkAbortM s with
  | Except.error e => Except.error e
  | Except.ok s =>
    let qualityScore := analysis.qualityScore
    let bugCount := (analysis.results.filter (fun r => !r.passed)).length
    let s := restCommitState iteration analysis s
    let s := if analysis.vibeCheck.degraded then
        logS "Vibe degraded. Refactoring." Severity.warning s
      else s
    let needsRefinement : Bool := decide (0 < bugCount) || analysis.vibeCheck.degraded
    if needsRefinement && decide (iteration < MAX_ITERATIONS) then
      match checkAbortM s with
      | Except.error e => Except.error e
      | Except.ok s =>
        let s := { s with app := setStatus AgentStatus.REFINING s.app }
        refineWrap qualityScore (refactorLoop env (refactorTargets current) current s)
    else
      if qualityScore ≥ 95 && !analysis.vibeCheck.degraded then
        Except.ok (StepOut.stable
          ⟨logS "System stable." Severity.success s, current, qualityScore⟩)
      else if decide (iteration ≥ MAX_ITERATIONS) then
        Except.ok (StepOut.exhausted
          ⟨logS "Max iterations reached." Severity.warning s, current, qualityScore⟩)
      else
        Except.ok (StepOut.plain ⟨s, current, qualityScore⟩)

/-- One body of the Phase 3 `while` loop (`src/App.tsx` lines 263-320),
excluding the trailing `iteration++` and the loop condition: checkpoint, set
TESTING and the iteration counter, log, await the analysis (absorbed
failures), then `convergeStepRest`. -/
def convergeStep (env : Env) (current : List ProjectFile) (iteration : Nat) (s : St) :
    Except (MErr × St) StepOut :=
  match checkAbortM s with
  | Except.error e => Except.error e
  | Except.ok s =>
    let s := { s with app := { s.app with state :=
      { s.app.state with status := AgentStatus.TESTING, iteration := iteration } } }
    let s := logS ("Iteration " ++ toString iteration ++ ": Running tests...") Severity.system s
    let s := doAwait env s
    let analysis := runAutonomousTests (env.analyzeRaw s.analysisCalls)
    let s := { s with analysisCalls := s.analysisCalls + 1 }
    convergeStepRest env current iteration analysis s

/-- The Phase 3 `while (iteration <= MAX_ITERATIONS && qualityScore < 95)`
loop, by fuel.  `iteration` strictly increases per body, so fuel
`MAX_ITERATIONS + 1` always outlasts the loop and the `0` fallback is never
reached. -/
def convergeLoopAux (env : Env) : Nat → List ProjectFile → Nat → Int → St →
    Except (MErr × St) StepRes
  | 0, current, _, qualityScore, s => Except.ok ⟨s, current, qualityScore⟩
  | Nat.succ fuel, current, iteration, qualityScore, s =>
    if iteration ≤ MAX_ITERATIONS ∧ qualityScore < 95 then
      match convergeStep env current iteration s with
      | Except.error e => Except.error e
      | Except.ok (StepOut.refined r) =>
          convergeLoopAux env fuel r.current (iteration + 1) r.qualityScore r.s
      | Except.ok (StepOut.plain r) =>
          convergeLoopAux env fuel r.current (iteration + 1) r.qualityScore r.s
      | Except.ok (StepOut.stable r) => Except.ok r
      | Except.ok (StepOut.exhausted r) => Except.ok r
    else Except.ok ⟨s, current, qualityScore⟩

/-- Phase 3 of `handleStartMarathon`, entered with `iteration = 1` and
`qualityScore = 0` (`src/App.tsx` lines 258-262). -/
def convergeLoop (env : Env) (current : List ProjectFile) (s : St) :
    Except (MErr × St) StepRes :=
  convergeLoopAux env (MAX_ITERATIONS + 1) current 1 0 s

/-- Propagate a coding-phase exception, or continue with its final state and
artifact list. -/
def codeCont (k : St → List ProjectFile → Except (MErr × St) St) :
    Except (MErr × St) (St × List ProjectFile) → Except (MErr × St) St
  | Except.error e => Except.error e
  | Except.ok (s, currentFiles) => k s currentFiles

/-- Propagate a converge-loop exception, or continue with its final running
state. -/
def convCont (k : St → Except (MErr × St) St) :
    Except (MErr × St) StepRes → Except (MErr × St) St
  | Except.error e => Except.error e
  | Except.ok r => k r.s

/-- Phase 4 of `handleStartMarathon` (`src/App.tsx` lines 325-330):
checkpoint, set COMPLETED, await the report (a rejection is fatal), store it,
log success and append the mission-complete agent message. -/
def marathonFinish (env : Env) (s : St) : Except (MErr × St) St :=
  match checkAbortM s with
  | Except.error e => Except.error e
  | Except.ok s =>
    let s := { s with app := setStatus AgentStatus.COMPLETED s.app }
    let s := doAwait env s
    match generateFinalReport env.reportText with
    | Except.error e => Except.error (MErr.service e, s)
    | Except.ok rep =>
      let s := { s with app := { s.app with state := { s.app.state with
        report := some rep } } }
      let s := logS "Mission Complete." Severity.success s
      let s := { s with app := (pushMsg Role.agent
        "Mission complete. I\x27ve built the application. Check the Preview tab." s.app) }
      Except.ok s

/-- Phase 3 of `handleStartMarathon` followed by Phase 4 (`src/App.tsx`
lines 256-330). -/
def marathonConverge (env : Env) (current : List ProjectFile) (s : St) :
    Except (MErr × St) St :=
  let s := logS "Phase 3: Optimization Loop" Severity.system s
  convCont (marathonFinish env) (convergeLoop env current s)

/-- Phase 2 of `handleStartMarathon` onward (`src/App.tsx` lines 229-330),
entered after the post-plan checkpoint: commit the plan skeleton with phase
CODING, log, generate every artifact, then converge. -/
def marathonCode (env : Env) (planFiles : List ProjectFile) (s : St) :
    Except (MErr × St) St :=
  let s := { s with app := { s.app with state := { s.app.state with
    files := planFiles, status := AgentStatus.CODING } } }
  let s := logS ("Plan generated. " ++ toString planFiles.length ++ " artifacts defined.")
    Severity.success s
  let s := logS "Phase 2: Autonomous Construction" Severity.system s
  codeCont (fun s currentFiles => marathonConverge env currentFiles s)
    (codeLoop env planFiles s)

/-- The post-plan checkpoint of `handleStartMarathon` (`src/App.tsx` line
227) followed by the rest of the build. -/
def marathonAfterPlan (env : Env) (plan : Plan) (s : St) : Except (MErr × St) St :=
  match checkAbortM s with
  | Except.error e => Except.error e
  | Except.ok s => marathonCode env plan.files s

/-- The `try` body of `handleStartMarathon` (`src/App.tsx` lines 214-330),
starting from the wholesale state reset: Phase 1 planning (a rejection is
fatal), then Phases 2-4, returning the final running state or the caught
exception with the state at the throw point. -/
def runMarathon (env : Env) (promptText : String) (prev : AppState) :
    Except (MErr × St) St :=
  let app := marathonInit promptText prev
  let app := pushLog "DAION Agent Initialized." Severity.system app
  let app := pushLog ("Goal: " ++ promptText) Severity.info app
  let s : St := ⟨app, false, 0, 0, 0⟩
  match checkAbortM s with
  | Except.error e => Except.error e
  | Except.ok s =>
    let s := logS "Phase 1: Architecture & Planning" Severity.system s
    let s := doAwait env s
    match env.planResult with
    | Except.error e => Except.error (MErr.service e, s)
    | Except.ok plan => marathonAfterPlan env plan s

/-- `handleStartMarathon` (`src/App.tsx` lines 214-342): the `try` body with
its `catch` — the cancellation error logs "Process halted." at `warning` and
appends the "Process stopped." agent message without touching the status;
every other rejection logs the failure at `error`, sets FAILED and appends
the generic error agent message. -/
def handleStartMarathon (env : Env) (promptText : String) (prev : AppState) : AppState :=
  match runMarathon env promptText prev with
  | Except.ok s => s.app
  | Except.error (MErr.stopped, s) =>
      pushMsg Role.agent "Process stopped."
        (pushLog "Process halted." Severity.warning s.app)
  | Except.error (MErr.service msg, s) =>
      pushMsg Role.agent "I encountered a critical error."
        (setStatus AgentStatus.FAILED
          (pushLog ("FAILURE: " ++ msg) Severity.error s.app))

/-- `handleManualTest` (`src/App.tsx` lines 120-153).  `snapshot` is the
render closure's `state` (for a direct button trigger it equals the live
`app.state`); `raw` is this run's analysis-call outcome, always absorbed by
`runAutonomousTests`.  Guard on the snapshot's files, remember whether the
snapshot was COMPLETED, set TESTING, log, analyse, append one metrics
snapshot, replace results and score wholesale, restore COMPLETED or IDLE,
then the outcome logs. -/
def handleManualTest (raw : Except String RawAnalysis) (snapshot : ProjectState)
    (app : AppState) : AppState :=
  if snapshot.files.length = 0 then app
  else
    let wasCompleted := snapshot.status = AgentStatus.COMPLETED
    let app := setStatus AgentStatus.TESTING app
    let app := pushLog "Manual Override: Initiating autonomous test suite..." Severity.system app
    let analysis := runAutonomousTests raw
    let qualityScore := analysis.qualityScore
    let bugCount := (analysis.results.filter (fun r => !r.passed)).length
    let nextIter := match app.metricsData.getLast? with
      | some p => p.iteration + 1
      | none => 1
    let app := { app with metricsData := app.metricsData ++ [ChartDataPoint.mk nextIter qualityScore bugCount] }
    let app := { app with state := { app.state with
      testResults := analysis.results
      qualityScore := qualityScore
      status := if wasCompleted then AgentStatus.COMPLETED else AgentStatus.IDLE } }
    if analysis.vibeCheck.degraded then
      pushLog ("Vibe Inspector: " ++ analysis.vibeCheck.reason) Severity.info
        (pushLog "System vibe degraded." Severity.warning app)
    else
      pushLog ("Quality Score: " ++ toString qualityScore ++ "/100. Bugs detected: " ++ toString bugCount)
        (if qualityScore > 80 then Severity.success else Severity.warning) app

/-- `handleRefinement` (`src/App.tsx` lines 188-212).  `refineRaw` is the
`refineProject` call's raw outcome; `stopDuringCall` says whether the STOP
click happened while that call was in flight (the turn's only `checkAbort`
sits right after it); `snapshot` is the render closure's `state`.  A
rejection logs at `error`, appends the failure agent message and resets the
status to IDLE; an observed cancellation only resets the status to IDLE; on
success the merged files are committed, the success message appended, and the
manual test suite re-run against the stale closure snapshot. -/
def handleRefinement (refineRaw : Except String (List ChangedFile × String))
    (stopDuringCall : Bool) (manualRaw : Except String RawAnalysis)
    (request : String) (snapshot : ProjectState) (app : AppState) : AppState :=
  let app := setStatus AgentStatus.REFINING app
  let app := pushLog ("User Request: " ++ request) Severity.system app
  let app := pushLog "Analyzing request and updating codebase..." Severity.info app
  let app := if stopDuringCall then
      setStatus AgentStatus.STOPPED
        (pushLog "Process termination requested by user." Severity.warning app)
    else app
  match refineProject snapshot.files refineRaw with
  | Except.error e =>
      setStatus AgentStatus.IDLE
        (pushMsg Role.agent "I couldn\x27t apply those changes. Check the logs."
          (pushLog ("Refinement failed: " ++ e) Severity.error app))
  | Except.ok (files, explanation) =>
      if stopDuringCall then
        setStatus AgentStatus.IDLE app
      else
        let app := { app with state := { app.state with
          files := files, status := AgentStatus.TESTING } }
        let app := pushLog ("Refinement applied: " ++ explanation) Severity.success app
        let app := pushMsg Role.agent
          ("I\x27ve updated the code: " ++ explanation ++ ". Running tests now...") app
        handleManualTest manualRaw snapshot app

/-- Everything one dispatched turn may consume: the marathon environment for
the new-build branch and the refinement-turn outcomes for the refine branch. -/
structure DispatchEnv where
  marathon : Env
  refineRaw : Except String (List ChangedFile × String)
  refineStop : Bool
  manualRaw : Except String RawAnalysis

/-- JS `String.prototype.trim`: strip leading and trailing whitespace. -/
def jsTrim (s : String) : String :=
  String.mk (((s.toList.dropWhile Char.isWhitespace).reverse.dropWhile
    Char.isWhitespace).reverse)

/-- `handleSendMessage` (`src/App.tsx` lines 167-186), assuming the API key
is present: reject blank input, append the user message, then route — phases
IDLE/STOPPED or an empty artifact list start a new build; phases
COMPLETED/FAILED/TESTING/CODING are treated as a refinement request; the
remaining phases (PLANNING, REFINING) fall through with no dispatch. -/
def handleSendMessage (d : DispatchEnv) (chatInput : String) (app : AppState) : AppState :=
  if jsTrim chatInput = "" then app
  else
    let snapshot := app.state
    let app := { app with messages := app.messages ++ [⟨Role.user, chatInput⟩] }
    if snapshot.status = AgentStatus.IDLE ∨ snapshot.status = AgentStatus.STOPPED ∨
        snapshot.files.length = 0 then
      handleStartMarathon d.marathon chatInput app
    else if snapshot.status = AgentStatus.COMPLETED ∨ snapshot.status = AgentStatus.FAILED ∨
        snapshot.status = AgentStatus.TESTING ∨ snapshot.status = AgentStatus.CODING then
      handleRefinement d.refineRaw d.refineStop d.manualRaw chatInput snapshot app
    else app

/-! ### Observables and statement helpers -/

/-- The running state a marathon outcome carries (the final state on success,
the state at the throw point on an exception). -/
def stOf (r : Except (MErr × St) St) : St :=
  match r with
  | Except.ok s => s
  | Except.error (_, s) => s

/-- Whether an `Except` outcome is a success. -/
def isOkE {ε α : Type _} (r : Except ε α) : Bool :=
  match r with
  | Except.ok _ => true
  | Except.error _ => false

/-- The analysis the next `convergeStep` body will receive, as a function of
the running state it starts from (the pre-analysis mutations of the body do
not move the analysis-call counter). -/
def stepAnalysis (env : Env) (s : St) : Analysis :=
  runAutonomousTests (env.analyzeRaw s.analysisCalls)

/-- The `bugCount` local of that body. -/
def stepBugCount (env : Env) (s : St) : Nat :=
  ((stepAnalysis env s).results.filter (fun r => !r.passed)).length

/-- The `vibeCheck.degraded` flag of that body's analysis. -/
def stepDegraded (env : Env) (s : St) : Bool :=
  (stepAnalysis env s).vibeCheck.degraded

/-- The `needsRefinement` local of that body. -/
def stepNeedsRefine (env : Env) (s : St) : Bool :=
  decide (0 < stepBugCount env s) || stepDegraded env s

/-- A `convergeStep` outcome that took the refactor branch. -/
def tookRefinePass (o : Except (MErr × St) StepOut) : Prop :=
  ∃ r, o = Except.ok (StepOut.refined r)

/-- The abort-flag/status coupling: whenever the shared abort flag is set the
recorded phase is STOPPED (`handleStop` is the only setter of the flag and
sets both together; the orchestrator's own status writes all sit behind a
fresh `checkAbort`). -/
def StopInv (s : St) : Prop :=
  s.stopped = true → s.app.state.status = AgentStatus.STOPPED

/-- `b` extends `a`'s append-only log stream. -/
def logsExt (a b : AppState) : Prop :=
  ∃ t, b.state.logs = a.state.logs ++ t

/-- Number of agent-role messages in the conversation. -/
def agentCount (a : AppState) : Nat :=
  (a.messages.filter (fun m => m.role == Role.agent)).length

/-! ### Concrete fixtures for counterexamples and witnesses -/

/-- A one-artifact plan skeleton. -/
def fileA : ProjectFile := ⟨"a.ts", "ts", "", FileStatus.pending⟩

/-- A healthy vibe check. -/
def okVibe : VibeCheck := ⟨false, "ok"⟩

/-- A failing finding. -/
def failT : TestResult := ⟨"", "t1", false, "bug found"⟩

/-- The empty app state (fresh session). -/
def emptyApp : AppState := ⟨INITIAL_STATE, [], []⟩

/-- A benign environment: one-file plan, generation succeeds, every analysis
reports quality 100 with a clean vibe, refactor and report succeed, no STOP
click. -/
def envBase : Env :=
  { planResult := Except.ok ⟨[fileA], "plan"⟩
    genText := fun _ => Except.ok (some "x")
    analyzeRaw := fun _ => Except.ok ⟨[], 100, some okVibe⟩
    refactorText := fun _ => Except.ok (some "y")
    reportText := Except.ok (some "rep")
    stopDuring := none }

/-- Environment for the C1 counterexample: the first analysis reports
quality 95 with a clean vibe but one failing finding. -/
def envC1 : Env :=
  { envBase with analyzeRaw := fun k =>
      if k = 0 then Except.ok ⟨[failT], 95, some okVibe⟩
      else Except.ok ⟨[], 100, some okVibe⟩ }

/-- Environment for the C3 counterexample: STOP is clicked while the
generation call for the first artifact is in flight (await 1: the plan call
is await 0). -/
def envC3gen : Env := { envBase with stopDuring := some 1 }

/-- Environment for the C3 discard conjunct: STOP is clicked while the first
analysis call is in flight (await 3: plan 0, generation 1, pacing delay 2),
and that analysis reports quality 77 with a failing finding. -/
def envC3an : Env :=
  { envBase with
    stopDuring := some 3
    analyzeRaw := fun _ => Except.ok ⟨[failT], 77, some okVibe⟩ }

/-- Environment for C5: every analysis call rejects. -/
def envC5 : Env := { envBase with analyzeRaw := fun _ => Except.error "network failure" }

/-- Dispatch fixture whose marathon succeeds immediately (used for C7). -/
def dEnvC7 : DispatchEnv :=
  ⟨envBase, Except.ok ([], "noop"), false, Except.ok ⟨[], 100, some okVibe⟩⟩

/-- Dispatch fixture whose refinement turn resolves but is cancelled while
the refine call is in flight (used for C7). -/
def dEnvStop : DispatchEnv :=
  ⟨envBase, Except.ok ([], "noop"), true, Except.ok ⟨[], 100, some okVibe⟩⟩

/-- A completed project snapshot holding one artifact (C4, C7 fixtures). -/
def snapDone : ProjectState :=
  { INITIAL_STATE with files := [fileA], status := AgentStatus.COMPLETED }

/-- The corresponding live app state. -/
def appDone : AppState := ⟨snapDone, [], []⟩

/-- Artifact list for the C8 witness: a json config, an artifact with empty
content, and three refactorable sources. -/
def filesC8 : List ProjectFile :=
  [⟨"cfg.json", "json", "x", FileStatus.created⟩,
   ⟨"a.ts", "ts", "ax", FileStatus.created⟩,
   ⟨"b.ts", "ts", "", FileStatus.created⟩,
   ⟨"c.ts", "ts", "cx", FileStatus.created⟩,
   ⟨"d.ts", "ts", "dx", FileStatus.created⟩]

/-- A running state over `appDone` with no abort flag and fresh counters
(C8 witness). -/
def stC8 : St := ⟨appDone, false, 0, 0, 0⟩

/-- Environment for the C8 witness: the first analysis reports quality 50
with a failing finding and a clean vibe, so the refactor branch fires. -/
def envC8 : Env :=
  { envBase with analyzeRaw := fun _ => Except.ok ⟨[failT], 50, some okVibe⟩ }

/-- The loop-body result carried by any `StepOut` constructor. -/
def stepResOf : StepOut → StepRes
  | StepOut.refined r => r
  | StepOut.plain r => r
  | StepOut.stable r => r
  | StepOut.exhausted r => r

/-- The warning log entry recorded when the iteration budget runs out. -/
def maxIterLog : LogEntry := ⟨"Max iterations reached.", Severity.warning⟩

/-- The acknowledgment agent message a new build opens with. -/
def ackMsg : Message := ⟨Role.agent, "Target acquired. Initializing DAION build sequence..."⟩

/-- The mission-complete agent message of a successful build. -/
def missionMsg : Message :=
  ⟨Role.agent, "Mission complete. I\x27ve built the application. Check the Preview tab."⟩

/-- Facts about Phase 4: the analysis-call counter and iteration field are
untouched, exactly one agent message (the mission narrative) is appended on
success and none on an exception, and the abort-flag/status coupling holds at
the end. -/
def FinFacts (s : St) : Except (MErr × St) St → Prop
  | Except.ok s' =>
      s'.analysisCalls = s.analysisCalls
      ∧ s'.app.state.iteration = s.app.state.iteration
      ∧ s'.app.messages = s.app.messages ++ [missionMsg]
      ∧ StopInv s'
  | Except.error (m, s') =>
      s'.analysisCalls = s.analysisCalls
      ∧ s'.app.state.iteration = s.app.state.iteration
      ∧ s'.app.messages = s.app.messages
      ∧ StopInv s'
      ∧ (m = MErr.stopped → s'.stopped = true)

/-- Facts about a marathon phase running to the end of the build: at most
`MAX_ITERATIONS` further analysis calls, the iteration field stays within
budget once it is, exactly one agent message appended on success and none on
an exception, abort-flag/status coupling at the end, and a cancellation exit
means the abort flag was observed set. -/
def PhaseFacts (s : St) : Except (MErr × St) St → Prop
  | Except.ok s' =>
      s'.analysisCalls ≤ s.analysisCalls + MAX_ITERATIONS
      ∧ (s.app.state.iteration ≤ MAX_ITERATIONS →
          s'.app.state.iteration ≤ MAX_ITERATIONS)
      ∧ s'.app.messages = s.app.messages ++ [missionMsg]
      ∧ StopInv s'
  | Except.error (m, s') =>
      s'.analysisCalls ≤ s.analysisCalls + MAX_ITERATIONS
      ∧ (s.app.state.iteration ≤ MAX_ITERATIONS →
          s'.app.state.iteration ≤ MAX_ITERATIONS)
      ∧ s'.app.messages = s.app.messages
      ∧ StopInv s'
      ∧ (m = MErr.stopped → s'.stopped = true)

/-- Facts about a whole marathon run started over `prev`: at most
`MAX_ITERATIONS` analysis calls, iteration field within budget, the
conversation extended by exactly the acknowledgment (and the mission message
on success), abort-flag/status coupling, and a cancellation exit means the
abort flag was observed set. -/
def RunFacts (prev : AppState) : Except (MErr × St) St → Prop
  | Except.ok s' =>
      s'.analysisCalls ≤ MAX_ITERATIONS
      ∧ s'.app.state.iteration ≤ MAX_ITERATIONS
      ∧ s'.app.messages = prev.messages ++ [ackMsg, missionMsg]
      ∧ StopInv s'
  | Except.error (m, s') =>
      s'.analysisCalls ≤ MAX_ITERATIONS
      ∧ s'.app.state.iteration ≤ MAX_ITERATIONS
      ∧ s'.app.messages = prev.messages ++ [ackMsg]
      ∧ StopInv s'
      ∧ (m = MErr.stopped → s'.stopped = true)

/-- A fresh running state over the empty app (witness fixtures). -/
def stBase : St := ⟨emptyApp, false, 0, 0, 0⟩

/-- A changed file naming the existing artifact `a.ts` (C6 witness). -/
def chA : ChangedFile := ⟨"a.ts", "newA", "ts"⟩

/-- A changed file with a fresh name (C6 witness). -/
def chNew : ChangedFile := ⟨"new.ts", "n", "ts"⟩

/-- Environment whose plan call rejects (C4 witness). -/
def envPlanFail : Env := { envBase with planResult := Except.error "plan down" }

/-- The `needsRefinement` condition of one converge-loop body
(`src/App.tsx` line 286), as a proposition on the analysis. -/
def restNeedsRefine (analysis : Analysis) : Prop :=
  0 < (analysis.results.filter (fun r => !r.passed)).length
  ∨ analysis.vibeCheck.degraded = true

instance restNeedsRefineDec (analysis : Analysis) : Decidable (restNeedsRefine analysis) := by
  unfold restNeedsRefine
  infer_instance

/-- Which way one converge-loop body ends, as decided by its analysis and
iteration (`src/App.tsx` lines 286-320): the refactor branch when there is a
failing result or a degraded vibe and budget remains; otherwise the stable
break, the exhaustion break, or the plain fall-through. -/
def restTag (it : Nat) (analysis : Analysis) (r : StepRes) : StepOut :=
  if restNeedsRefine analysis ∧ it < MAX_ITERATIONS then StepOut.refined r
  else if analysis.qualityScore ≥ 95 ∧ analysis.vibeCheck.degraded = false then
    StepOut.stable r
  else if it ≥ MAX_ITERATIONS then StepOut.exhausted r
  else StepOut.plain r

/-- The running state one converge-loop body reaches just before its tail,
when no STOP click interferes: TESTING phase with the iteration counter set,
the iteration log, one await passed and the analysis-call counter bumped. -/
def stepCommitState (it : Nat) (s : St) : St :=
  { s with
    app := pushLog ("Iteration " ++ toString it ++ ": Running tests...") Severity.system
      { s.app with state :=
        { s.app.state with status := AgentStatus.TESTING, iteration := it } }
    awaits := s.awaits + 1
    analysisCalls := s.analysisCalls + 1 }

/-- The frame the refactor loop preserves on the running state: the
analysis-call counter, the iteration field, quality score, test results,
metrics, conversation; logs only grow; and the abort-flag/status coupling is
maintained. -/
def RFrame (s s' : St) : Prop :=
  s'.analysisCalls = s.analysisCalls
  ∧ s'.app.state.iteration = s.app.state.iteration
  ∧ s'.app.state.qualityScore = s.app.state.qualityScore
  ∧ s'.app.state.testResults = s.app.state.testResults
  ∧ s'.app.metricsData = s.app.metricsData
  ∧ s'.app.messages = s.app.messages
  ∧ logsExt s.app s'.app
  ∧ (StopInv s → StopInv s')

/-- The frame the coding loop preserves: `RFrame` plus the refactor-call
counter. -/
def CFrame (s s' : St) : Prop :=
  RFrame s s' ∧ s'.refactorCalls = s.refactorCalls

/-- The frame one converge-loop body preserves: the analysis-call counter
grows by at most the body's single analysis call, the conversation is
untouched, logs only grow, the iteration field stays within budget once it
is, and the abort-flag/status coupling is maintained. -/
def LFrame (s s' : St) : Prop :=
  s.analysisCalls ≤ s'.analysisCalls
  ∧ s'.analysisCalls ≤ s.analysisCalls + 1
  ∧ (s.app.state.iteration ≤ MAX_ITERATIONS → s'.app.state.iteration ≤ MAX_ITERATIONS)
  ∧ s'.app.messages = s.app.messages
  ∧ logsExt s.app s'.app
  ∧ (StopInv s → StopInv s')

/-- The frame the tail of a converge-loop body preserves: the analysis-call
counter and iteration field exactly, the conversation, growing logs, and the
abort-flag/status coupling. -/
def QFrame (s s' : St) : Prop :=
  s'.analysisCalls = s.analysisCalls
  ∧ s'.app.state.iteration = s.app.state.iteration
  ∧ s'.app.messages = s.app.messages
  ∧ logsExt s.app s'.app
  ∧ (StopInv s → StopInv s')

/-- Facts pattern for an operation returning a running state and a file
list: on success the frame `F` relates input to output; on an exception it
relates input to the state at the throw point, and a cancellation exit means
the abort flag was observed set. -/
def PairFacts (F : St → St → Prop) (s : St) :
    Except (MErr × St) (St × List ProjectFile) → Prop
  | Except.ok (s', _) => F s s'
  | Except.error (m, s') => F s s' ∧ (m = MErr.stopped → s'.stopped = true)

/-- `PairFacts` for an operation returning only a running state. -/
def StFacts (F : St → St → Prop) (s : St) : Except (MErr × St) St → Prop
  | Except.ok s' => F s s'
  | Except.error (m, s') => F s s' ∧ (m = MErr.stopped → s'.stopped = true)

/-- `PairFacts` for one converge-loop body. -/
def OutFacts (F : St → St → Prop) (s : St) : Except (MErr × St) StepOut → Prop
  | Except.ok out => F s (stepResOf out).s
  | Except.error (m, s') => F s s' ∧ (m = MErr.stopped → s'.stopped = true)

/-- `PairFacts` for the whole converge loop. -/
def ResFacts (F : St → St → Prop) (s : St) : Except (MErr × St) StepRes → Prop
  | Except.ok r => F s r.s
  | Except.error (m, s') => F s s' ∧ (m = MErr.stopped → s'.stopped = true)

/-- The frame the converge loop preserves when entered at iteration `it`:
at most `MAX_ITERATIONS + 1 - it` further analysis calls, no conversation
change, growing logs, bounded iteration field, abort-flag/status coupling. -/
def LoopFrame (it : Nat) (s s' : St) : Prop :=
  s.analysisCalls ≤ s'.analysisCalls
  ∧ s'.analysisCalls ≤ s.analysisCalls + (MAX_ITERATIONS + 1 - it)
  ∧ (s.app.state.iteration ≤ MAX_ITERATIONS → s'.app.state.iteration ≤ MAX_ITERATIONS)
  ∧ s'.app.messages = s.app.messages
  ∧ logsExt s.app s'.app
  ∧ (StopInv s → StopInv s')

/-! ### Basic list lemmas -/

theorem length_listSet {α : Type _} (l : List α) (i : Nat) (a : α) :
    (listSet l i a).length = l.length := by
  induction l generalizing i with
  | nil => rfl
  | cons x xs ih =>
    cases i with
    | zero => rfl
    | succ n => simpa [listSet] using ih n

theorem get?_listSet_self {α : Type _} (l : List α) (i : Nat) (a : α) (h : i < l.length) :
    (listSet l i a).get? i = some a := by
  induction l generalizing i with
  | nil => cases h
  | cons x xs ih =>
    cases i with
    | zero => rfl
    | succ n => simpa [listSet, List.get?] using ih n (by simpa using h)

theorem get?_listSet_ne {α : Type _} (l : List α) (i : Nat) (a : α) (j : Nat) (h : j ≠ i) :
    (listSet l i a).get? j = l.get? j := by
  induction l generalizing i j with
  | nil => rfl
  | cons x xs ih =>
    cases i with
    | zero =>
      cases j with
      | zero => exact absurd rfl h
      | succ m => rfl
    | succ n =>
      cases j with
      | zero => rfl
      | succ m => simpa [listSet, List.get?] using ih n m (by omega)

theorem map_listSet {α β : Type _} (g : α → β) (l : List α) (i : Nat) (a b : α)
    (hb : l.get? i = some b) (hab : g a = g b) :
    (listSet l i a).map g = l.map g := by
  induction l generalizing i with
  | nil => rfl
  | cons x xs ih =>
    cases i with
    | zero =>
      simp only [List.get?] at hb
      cases hb
      simp [listSet, hab]
    | succ n =>
      simp only [List.get?] at hb
      simp [listSet, ih n hb]

theorem mem_of_get?_eq_some {α : Type _} {l : List α} {i : Nat} {a : α}
    (h : l.get? i = some a) : a ∈ l := by
  induction l generalizing i with
  | nil => cases h
  | cons x xs ih =>
    cases i with
    | zero =>
      simp only [List.get?, Option.some.injEq] at h
      exact h ▸ List.mem_cons_self x xs
    | succ n => exact List.mem_cons_of_mem x (ih (by simpa [List.get?] using h))

theorem length_updateContentAt (l : List ProjectFile) (i : Nat) (c : String) :
    (updateContentAt l i c).length = l.length := by
  induction l generalizing i with
  | nil => rfl
  | cons x xs ih =>
    cases i with
    | zero => rfl
    | succ n => simpa [updateContentAt] using ih n

theorem get?_updateContentAt_self (l : List ProjectFile) (i : Nat) (c : String)
    (f : ProjectFile) (h : l.get? i = some f) :
    (updateContentAt l i c).get? i = some { f with content := c } := by
  induction l generalizing i with
  | nil => cases h
  | cons x xs ih =>
    cases i with
    | zero => simp only [List.get?] at h; cases h; rfl
    | succ n => simpa [updateContentAt, List.get?] using ih n (by simpa [List.get?] using h)

theorem get?_updateContentAt_ne (l : List ProjectFile) (i : Nat) (c : String) (j : Nat)
    (h : j ≠ i) : (updateContentAt l i c).get? j = l.get? j := by
  induction l generalizing i j with
  | nil => rfl
  | cons x xs ih =>
    cases i with
    | zero =>
      cases j with
      | zero => exact absurd rfl h
      | succ m => rfl
    | succ n =>
      cases j with
      | zero => rfl
      | succ m => simpa [updateContentAt, List.get?] using ih n m (by omega)

theorem findIdxO_get? {α : Type _} (p : α → Bool) (l : List α) (i : Nat)
    (h : findIdxO p l = some i) : ∃ a, l.get? i = some a ∧ p a = true := by
  induction l generalizing i with
  | nil => cases h
  | cons x xs ih =>
    by_cases hx : p x = true
    · simp only [findIdxO, hx, if_true] at h
      cases h
      exact ⟨x, rfl, hx⟩
    · simp only [findIdxO, hx, if_false, Bool.false_eq_true] at h
      cases hi : findIdxO p xs with
      | none => rw [hi] at h; cases h
      | some n =>
        rw [hi] at h
        simp only [Option.map, Option.some.injEq] at h
        subst h
        obtain ⟨a, ha, hpa⟩ := ih n hi
        exact ⟨a, by simpa [List.get?] using ha, hpa⟩

theorem findIdxO_none_of_not {α : Type _} (p : α → Bool) (l : List α)
    (h : ∀ a ∈ l, p a = false) : findIdxO p l = none := by
  induction l with
  | nil => rfl
  | cons x xs ih =>
    have hx := h x (List.mem_cons_self x xs)
    simp [findIdxO, hx, ih (fun a ha => h a (List.mem_cons_of_mem x ha))]

theorem findIdxO_of_nodup (l : List ProjectFile) (i : Nat) (f : ProjectFile)
    (h : l.get? i = some f) (hn : (l.map (fun g => g.name)).Nodup) :
    findIdxO (fun g => g.name == f.name) l = some i := by
  induction l generalizing i with
  | nil => cases h
  | cons x xs ih =>
    simp only [List.map_cons, List.nodup_cons] at hn
    cases i with
    | zero =>
      simp only [List.get?] at h
      cases h
      simp [findIdxO]
    | succ n =>
      simp only [List.get?] at h
      have hfmem : f.name ∈ xs.map (fun g => g.name) :=
        List.mem_map_of_mem (fun g => g.name) (mem_of_get?_eq_some h)
      have hxf : (x.name == f.name) = false := by
        by_cases hxx : x.name = f.name
        · exact absurd (hxx ▸ hfmem) hn.1
        · simpa using hxx
      simp [findIdxO, hxf, ih n h hn.2]

/-! ### App-state update frame lemmas -/

@[simp] theorem pushLog_state_status (m : String) (t : Severity) (a : AppState) :
    (pushLog m t a).state.status = a.state.status := rfl

@[simp] theorem pushLog_state_files (m : String) (t : Severity) (a : AppState) :
    (pushLog m t a).state.files = a.state.files := rfl

@[simp] theorem pushLog_state_testResults (m : String) (t : Severity) (a : AppState) :
    (pushLog m t a).state.testResults = a.state.testResults := rfl

@[simp] theorem pushLog_state_qualityScore (m : String) (t : Severity) (a : AppState) :
    (pushLog m t a).state.qualityScore = a.state.qualityScore := rfl

@[simp] theorem pushLog_state_iteration (m : String) (t : Severity) (a : AppState) :
    (pushLog m t a).state.iteration = a.state.iteration := rfl

@[simp] theorem pushLog_state_report (m : String) (t : Severity) (a : AppState) :
    (pushLog m t a).state.report = a.state.report := rfl

@[simp] theorem pushLog_state_name (m : String) (t : Severity) (a : AppState) :
    (pushLog m t a).state.name = a.state.name := rfl

@[simp] theorem pushLog_state_description (m : String) (t : Severity) (a : AppState) :
    (pushLog m t a).state.description = a.state.description := rfl

@[simp] theorem pushLog_messages (m : String) (t : Severity) (a : AppState) :
    (pushLog m t a).messages = a.messages := rfl

@[simp] theorem pushLog_metricsData (m : String) (t : Severity) (a : AppState) :
    (pushLog m t a).metricsData = a.metricsData := rfl

@[simp] theorem pushLog_state_logs (m : String) (t : Severity) (a : AppState) :
    (pushLog m t a).state.logs = a.state.logs ++ [⟨m, t⟩] := rfl

@[simp] theorem pushMsg_state (r : Role) (t : String) (a : AppState) :
    (pushMsg r t a).state = a.state := rfl

@[simp] theorem pushMsg_messages (r : Role) (t : String) (a : AppState) :
    (pushMsg r t a).messages = a.messages ++ [⟨r, t⟩] := rfl

@[simp] theorem pushMsg_metricsData (r : Role) (t : String) (a : AppState) :
    (pushMsg r t a).metricsData = a.metricsData := rfl

@[simp] theorem setStatus_state_status (st : AgentStatus) (a : AppState) :
    (setStatus st a).state.status = st := rfl

@[simp] theorem setStatus_state_files (st : AgentStatus) (a : AppState) :
    (setStatus st a).state.files = a.state.files := rfl

@[simp] theorem setStatus_state_logs (st : AgentStatus) (a : AppState) :
    (setStatus st a).state.logs = a.state.logs := rfl

@[simp] theorem setStatus_messages (st : AgentStatus) (a : AppState) :
    (setStatus st a).messages = a.messages := rfl

@[simp] theorem setStatus_metricsData (st : AgentStatus) (a : AppState) :
    (setStatus st a).metricsData = a.metricsData := rfl

@[simp] theorem setStatus_state_iteration (st : AgentStatus) (a : AppState) :
    (setStatus st a).state.iteration = a.state.iteration := rfl

@[simp] theorem setStatus_state_qualityScore (st : AgentStatus) (a : AppState) :
    (setStatus st a).state.qualityScore = a.state.qualityScore := rfl

@[simp] theorem setStatus_state_testResults (st : AgentStatus) (a : AppState) :
    (setStatus st a).state.testResults = a.state.testResults := rfl

@[simp] theorem setStatus_state_report (st : AgentStatus) (a : AppState) :
    (setStatus st a).state.report = a.state.report := rfl

@[simp] theorem setFiles_state_iteration (files : List ProjectFile) (a : AppState) :
    (setFiles files a).state.iteration = a.state.iteration := rfl

@[simp] theorem setFiles_state_logs (files : List ProjectFile) (a : AppState) :
    (setFiles files a).state.logs = a.state.logs := rfl

@[simp] theorem setFiles_metricsData (files : List ProjectFile) (a : AppState) :
    (setFiles files a).metricsData = a.metricsData := rfl

@[simp] theorem setFiles_state_files (files : List ProjectFile) (a : AppState) :
    (setFiles files a).state.files = files := rfl

@[simp] theorem setFiles_state_status (files : List ProjectFile) (a : AppState) :
    (setFiles files a).state.status = a.state.status := rfl

@[simp] theorem setFiles_messages (files : List ProjectFile) (a : AppState) :
    (setFiles files a).messages = a.messages := rfl

theorem agentCount_pushMsg_agent (t : String) (a : AppState) :
    agentCount (pushMsg Role.agent t a) = agentCount a + 1 := by
  simp [agentCount, pushMsg, List.filter_append]

theorem agentCount_pushMsg_user (t : String) (a : AppState) :
    agentCount (pushMsg Role.user t a) = agentCount a := by
  simp [agentCount, pushMsg, List.filter_append]

theorem agentCount_pushLog (m : String) (t : Severity) (a : AppState) :
    agentCount (pushLog m t a) = agentCount a := rfl

theorem agentCount_setStatus (st : AgentStatus) (a : AppState) :
    agentCount (setStatus st a) = agentCount a := rfl

theorem logsExt_refl (a : AppState) : logsExt a a := ⟨[], by simp⟩

theorem logsExt_trans {a b c : AppState} (h₁ : logsExt a b) (h₂ : logsExt b c) :
    logsExt a c := by
  obtain ⟨t₁, h₁⟩ := h₁
  obtain ⟨t₂, h₂⟩ := h₂
  exact ⟨t₁ ++ t₂, by simp [h₂, h₁]⟩

theorem logsExt_pushLog (m : String) (t : Severity) (a : AppState) :
    logsExt a (pushLog m t a) := ⟨[⟨m, t⟩], rfl⟩

theorem mem_logs_of_logsExt {a b : AppState} (h : logsExt a b) {e : LogEntry}
    (he : e ∈ a.state.logs) : e ∈ b.state.logs := by
  obtain ⟨t, ht⟩ := h
  rw [ht]
  exact List.mem_append_left t he

/-! ### Claims C6, C9, C10 -/

/-- C6: merging one changed file of a refinement response whose name matches
an existing artifact leaves the length of `files` unchanged and replaces only
that artifact's content (name, language tag and status untouched, all other
indices unchanged), while a changed file with a new name appends exactly one
artifact with status `created`; the full merge folds this step over the
response's changed files. -/
theorem claim_C6 (files : List ProjectFile) (change : ChangedFile) :
    (∀ j, findIdxO (fun f => f.name == change.name) files = some j →
        (mergeChange files change).length = files.length
        ∧ (∀ f, files.get? j = some f →
            (mergeChange files change).get? j = some { f with content := change.content })
        ∧ (∀ i, i ≠ j → (mergeChange files change).get? i = files.get? i))
    ∧ (findIdxO (fun f => f.name == change.name) files = none →
        mergeChange files change =
          files ++ [⟨change.name, change.language, change.content, FileStatus.created⟩]
        ∧ (mergeChange files change).length = files.length + 1)
    ∧ refineMergeFiles files [change] = mergeChange files change := by
  refine ⟨?_, ?_, rfl⟩
  · intro j hj
    unfold mergeChange
    rw [hj]
    exact ⟨length_updateContentAt _ _ _,
      fun f hf => get?_updateContentAt_self _ _ _ _ hf,
      fun i hi => get?_updateContentAt_ne _ _ _ _ hi⟩
  · intro hn
    unfold mergeChange
    rw [hn]
    exact ⟨rfl, by simp⟩

/-- Witness for C6 at concrete inputs: overwriting `a.ts` keeps one artifact
and replaces only its content; a fresh name appends a `created` artifact. -/
theorem claim_C6_witness :
    ((mergeChange [fileA] chA).length = 1
      ∧ (mergeChange [fileA] chA).get? 0 = some { fileA with content := "newA" })
    ∧ mergeChange [fileA] chNew =
        [fileA] ++ [⟨"new.ts", "ts", "n", FileStatus.created⟩] :=
  ⟨⟨((claim_C6 [fileA] chA).1 0 (by decide)).1,
    ((claim_C6 [fileA] chA).1 0 (by decide)).2.1 fileA rfl⟩,
   ((claim_C6 [fileA] chNew).2.1 (by decide)).1⟩

/-- C9: starting a new build wholesale-replaces the live project — the very
first `setState` of `handleStartMarathon` installs a fresh project with
`iteration = 0`, `qualityScore = 0`, no files, no test results, no report,
phase PLANNING, and clears the metrics series (only the conversation and the
prompt-derived name/description carry over). -/
theorem claim_C9 (promptText : String) (prev : AppState) :
    marathonInit promptText prev =
      { state := { INITIAL_STATE with
          name := "New Project"
          description := promptText
          status := AgentStatus.PLANNING }
        messages := prev.messages ++ [ackMsg]
        metricsData := [] }
    ∧ (marathonInit promptText prev).state.iteration = 0
    ∧ (marathonInit promptText prev).state.qualityScore = 0
    ∧ (marathonInit promptText prev).metricsData = []
    ∧ (marathonInit promptText prev).state.files = []
    ∧ (marathonInit promptText prev).state.report = none :=
  ⟨rfl, rfl, rfl, rfl, rfl, rfl⟩

/-- C10: a manual test run whose analysis call returns leaves `files`,
`name`, `description`, `iteration` and `report` unchanged, replaces
`testResults` and `qualityScore` wholesale, appends exactly one metrics
snapshot whose iteration is one greater than the last snapshot's (1 on an
empty series), and restores the phase to COMPLETED exactly when it was
COMPLETED at trigger time, IDLE otherwise. -/
theorem claim_C10 (raw : Except String RawAnalysis) (app : AppState)
    (h : app.state.files.length ≠ 0) :
    (handleManualTest raw app.state app).state.files = app.state.files
    ∧ (handleManualTest raw app.state app).state.name = app.state.name
    ∧ (handleManualTest raw app.state app).state.description = app.state.description
    ∧ (handleManualTest raw app.state app).state.iteration = app.state.iteration
    ∧ (handleManualTest raw app.state app).state.report = app.state.report
    ∧ (handleManualTest raw app.state app).state.testResults = (runAutonomousTests raw).results
    ∧ (handleManualTest raw app.state app).state.qualityScore = (runAutonomousTests raw).qualityScore
    ∧ (handleManualTest raw app.state app).metricsData = app.metricsData ++
        [ChartDataPoint.mk
          (match app.metricsData.getLast? with
           | some p => p.iteration + 1
           | none => 1)
          (runAutonomousTests raw).qualityScore
          (((runAutonomousTests raw).results.filter (fun r => !r.passed)).length)]
    ∧ (handleManualTest raw app.state app).state.status =
        (if app.state.status = AgentStatus.COMPLETED then AgentStatus.COMPLETED
         else AgentStatus.IDLE) := by
  unfold handleManualTest
  rw [if_neg h]
  by_cases hdeg : (runAutonomousTests raw).vibeCheck.degraded = true
  · simp [hdeg, pushLog, setStatus]
  · simp [hdeg, pushLog, setStatus]

/-- Witness for C10: a manual run on the completed one-artifact project with
a clean quality-100 analysis. -/
theorem claim_C10_witness :
    (handleManualTest (Except.ok ⟨[], 100, some okVibe⟩) appDone.state appDone).state.files =
      appDone.state.files
    ∧ (handleManualTest (Except.ok ⟨[], 100, some okVibe⟩) appDone.state appDone).state.qualityScore = 100
    ∧ (handleManualTest (Except.ok ⟨[], 100, some okVibe⟩) appDone.state appDone).metricsData =
        appDone.metricsData ++ [ChartDataPoint.mk 1 100 0]
    ∧ (handleManualTest (Except.ok ⟨[], 100, some okVibe⟩) appDone.state appDone).state.status =
        AgentStatus.COMPLETED := by
  exact ⟨(claim_C10 (Except.ok ⟨[], 100, some okVibe⟩) appDone (by decide)).1,
    by decide, by decide, by decide⟩

/-! ### Checkpoint and await lemmas -/

theorem checkAbortM_false {s : St} (hs : s.stopped = false) :
    checkAbortM s = Except.ok s := by
  simp [checkAbortM, hs]

theorem checkAbortM_true {s : St} (hs : s.stopped = true) :
    checkAbortM s = Except.error (MErr.stopped, s) := by
  simp [checkAbortM, hs]

theorem doAwait_none {env : Env} (hd : env.stopDuring = none) (s : St) :
    doAwait env s = { s with awaits := s.awaits + 1 } := by
  simp [doAwait, hd]

@[simp] theorem logS_stopped (m : String) (t : Severity) (s : St) :
    (logS m t s).stopped = s.stopped := rfl

@[simp] theorem logS_analysisCalls (m : String) (t : Severity) (s : St) :
    (logS m t s).analysisCalls = s.analysisCalls := rfl

@[simp] theorem logS_refactorCalls (m : String) (t : Severity) (s : St) :
    (logS m t s).refactorCalls = s.refactorCalls := rfl

@[simp] theorem logS_app (m : String) (t : Severity) (s : St) :
    (logS m t s).app = pushLog m t s.app := rfl

@[simp] theorem logS_awaits (m : String) (t : Severity) (s : St) :
    (logS m t s).awaits = s.awaits := rfl

@[simp] theorem doAwait_analysisCalls (env : Env) (s : St) :
    (doAwait env s).analysisCalls = s.analysisCalls := by
  unfold doAwait; split <;> rfl

@[simp] theorem doAwait_refactorCalls (env : Env) (s : St) :
    (doAwait env s).refactorCalls = s.refactorCalls := by
  unfold doAwait; split <;> rfl

@[simp] theorem doAwait_messages (env : Env) (s : St) :
    (doAwait env s).app.messages = s.app.messages := by
  unfold doAwait; split <;> rfl

@[simp] theorem doAwait_metricsData (env : Env) (s : St) :
    (doAwait env s).app.metricsData = s.app.metricsData := by
  unfold doAwait; split <;> rfl

@[simp] theorem doAwait_iteration (env : Env) (s : St) :
    (doAwait env s).app.state.iteration = s.app.state.iteration := by
  unfold doAwait; split <;> rfl

@[simp] theorem doAwait_qualityScore (env : Env) (s : St) :
    (doAwait env s).app.state.qualityScore = s.app.state.qualityScore := by
  unfold doAwait; split <;> rfl

@[simp] theorem doAwait_testResults (env : Env) (s : St) :
    (doAwait env s).app.state.testResults = s.app.state.testResults := by
  unfold doAwait; split <;> rfl

@[simp] theorem doAwait_files (env : Env) (s : St) :
    (doAwait env s).app.state.files = s.app.state.files := by
  unfold doAwait; split <;> rfl

@[simp] theorem restCommitState_stopped (it : Nat) (analysis : Analysis) (s : St) :
    (restCommitState it analysis s).stopped = s.stopped := rfl

@[simp] theorem restCommitState_analysisCalls (it : Nat) (analysis : Analysis) (s : St) :
    (restCommitState it analysis s).analysisCalls = s.analysisCalls := rfl

@[simp] theorem restCommitState_refactorCalls (it : Nat) (analysis : Analysis) (s : St) :
    (restCommitState it analysis s).refactorCalls = s.refactorCalls := rfl

@[simp] theorem restCommitState_awaits (it : Nat) (analysis : Analysis) (s : St) :
    (restCommitState it analysis s).awaits = s.awaits := rfl

@[simp] theorem restCommitState_messages (it : Nat) (analysis : Analysis) (s : St) :
    (restCommitState it analysis s).app.messages = s.app.messages := rfl

@[simp] theorem restCommitState_iteration (it : Nat) (analysis : Analysis) (s : St) :
    (restCommitState it analysis s).app.state.iteration = s.app.state.iteration := rfl

@[simp] theorem restCommitState_status (it : Nat) (analysis : Analysis) (s : St) :
    (restCommitState it analysis s).app.state.status = s.app.state.status := rfl

@[simp] theorem restCommitState_logs (it : Nat) (analysis : Analysis) (s : St) :
    (restCommitState it analysis s).app.state.logs = s.app.state.logs := rfl

@[simp] theorem restCommitState_testResults (it : Nat) (analysis : Analysis) (s : St) :
    (restCommitState it analysis s).app.state.testResults = analysis.results := rfl

@[simp] theorem restCommitState_qualityScore (it : Nat) (analysis : Analysis) (s : St) :
    (restCommitState it analysis s).app.state.qualityScore = analysis.qualityScore := rfl

@[simp] theorem restCommitState_files (it : Nat) (analysis : Analysis) (s : St) :
    (restCommitState it analysis s).app.state.files = s.app.state.files := rfl

theorem doAwait_logsExt (env : Env) (s : St) : logsExt s.app (doAwait env s).app := by
  unfold doAwait
  split
  · exact ⟨[⟨"Process termination requested by user.", Severity.warning⟩], rfl⟩
  · exact logsExt_refl _

theorem doAwait_stopInv (env : Env) {s : St} (hi : StopInv s) : StopInv (doAwait env s) := by
  unfold doAwait
  split
  · intro _; rfl
  · exact hi

theorem logS_stopInv (m : String) (t : Severity) {s : St} (hi : StopInv s) :
    StopInv (logS m t s) := by
  intro h
  simpa [logS] using hi h

/-! ### Frame relation lemmas -/

theorem RFrame_refl (s : St) : RFrame s s :=
  ⟨rfl, rfl, rfl, rfl, rfl, rfl, logsExt_refl _, fun h => h⟩

theorem RFrame_trans {s₁ s₂ s₃ : St} (h₁ : RFrame s₁ s₂) (h₂ : RFrame s₂ s₃) :
    RFrame s₁ s₃ := by
  obtain ⟨a₁, b₁, c₁, d₁, e₁, f₁, g₁, i₁⟩ := h₁
  obtain ⟨a₂, b₂, c₂, d₂, e₂, f₂, g₂, i₂⟩ := h₂
  exact ⟨a₂.trans a₁, b₂.trans b₁, c₂.trans c₁, d₂.trans d₁, e₂.trans e₁, f₂.trans f₁,
    logsExt_trans g₁ g₂, fun h => i₂ (i₁ h)⟩

theorem RFrame_logS (m : String) (t : Severity) (s : St) : RFrame s (logS m t s) :=
  ⟨rfl, rfl, rfl, rfl, rfl, rfl, logsExt_pushLog m t s.app, logS_stopInv m t⟩

theorem RFrame_doAwait (env : Env) (s : St) : RFrame s (doAwait env s) :=
  ⟨doAwait_analysisCalls env s, doAwait_iteration env s, doAwait_qualityScore env s,
    doAwait_testResults env s, doAwait_metricsData env s, doAwait_messages env s,
    doAwait_logsExt env s, doAwait_stopInv env⟩

theorem RFrame_setFiles (c : List ProjectFile) (s : St) :
    RFrame s { s with app := setFiles c s.app } :=
  ⟨rfl, rfl, rfl, rfl, rfl, rfl, logsExt_refl _, fun hi h => by simpa [setFiles] using hi h⟩

theorem RFrame_incRefactor (s : St) :
    RFrame s { s with refactorCalls := s.refactorCalls + 1 } :=
  ⟨rfl, rfl, rfl, rfl, rfl, rfl, logsExt_refl _, fun h => h⟩

theorem CFrame_refl (s : St) : CFrame s s := ⟨RFrame_refl s, rfl⟩

theorem CFrame_trans {s₁ s₂ s₃ : St} (h₁ : CFrame s₁ s₂) (h₂ : CFrame s₂ s₃) :
    CFrame s₁ s₃ :=
  ⟨RFrame_trans h₁.1 h₂.1, h₂.2.trans h₁.2⟩

theorem CFrame_logS (m : String) (t : Severity) (s : St) : CFrame s (logS m t s) :=
  ⟨RFrame_logS m t s, rfl⟩

theorem CFrame_doAwait (env : Env) (s : St) : CFrame s (doAwait env s) :=
  ⟨RFrame_doAwait env s, doAwait_refactorCalls env s⟩

theorem CFrame_setFiles (c : List ProjectFile) (s : St) :
    CFrame s { s with app := setFiles c s.app } :=
  ⟨RFrame_setFiles c s, rfl⟩

/-! ### Loop frame facts -/

theorem PairFacts_RFrame_compose {s t : St} (h : RFrame s t)
    {res : Except (MErr × St) (St × List ProjectFile)}
    (hres : PairFacts RFrame t res) : PairFacts RFrame s res := by
  cases res with
  | ok p =>
    obtain ⟨s', c⟩ := p
    exact RFrame_trans h hres
  | error e =>
    obtain ⟨m, s'⟩ := e
    exact ⟨RFrame_trans h hres.1, hres.2⟩

theorem PairFacts_CFrame_compose {s t : St} (h : CFrame s t)
    {res : Except (MErr × St) (St × List ProjectFile)}
    (hres : PairFacts CFrame t res) : PairFacts CFrame s res := by
  cases res with
  | ok p =>
    obtain ⟨s', c⟩ := p
    exact CFrame_trans h hres
  | error e =>
    obtain ⟨m, s'⟩ := e
    exact ⟨CFrame_trans h hres.1, hres.2⟩

/-- The refactor loop preserves `RFrame`, and a cancellation exit means the
abort flag was observed set. -/
theorem refactorLoop_facts (env : Env) :
    ∀ (targets current : List ProjectFile) (s : St),
    PairFacts RFrame s (refactorLoop env targets current s) := by
  intro targets
  induction targets with
  | nil =>
    intro current s
    simp only [refactorLoop, PairFacts]
    exact RFrame_refl s
  | cons file rest ih =>
    intro current s
    by_cases hst : s.stopped = true
    · simp only [refactorLoop, checkAbortM_true hst, PairFacts]
      exact ⟨RFrame_refl s, fun _ => hst⟩
    · rw [Bool.not_eq_true] at hst
      simp only [refactorLoop, checkAbortM_false hst]
      set s1 := doAwait env (logS ("Refactoring " ++ file.name ++ "...") Severity.info s) with hs1
      have hfr1 : RFrame s { s1 with refactorCalls := s1.refactorCalls + 1 } :=
        RFrame_trans (RFrame_logS _ _ _)
          (RFrame_trans (RFrame_doAwait _ _) (RFrame_incRefactor _))
      cases hrc : refactorCode file (env.refactorText s1.refactorCalls) with
      | error e =>
        simp only [hrc, PairFacts]
        exact ⟨hfr1, fun h => by cases h⟩
      | ok newContent =>
        simp only [hrc]
        cases hfi : findIdxO (fun f => f.name == file.name) current with
        | some idx =>
          simp only [hfi]
          exact PairFacts_RFrame_compose
            (RFrame_trans hfr1 (RFrame_setFiles _ _)) (ih _ _)
        | none =>
          simp only [hfi]
          exact PairFacts_RFrame_compose hfr1 (ih _ _)

/-- The coding loop preserves `CFrame`, and a cancellation exit means the
abort flag was observed set. -/
theorem codeLoopAux_facts (env : Env) :
    ∀ (fuel : Nat) (current : List ProjectFile) (i : Nat) (s : St),
    PairFacts CFrame s (codeLoopAux env fuel current i s) := by
  intro fuel
  induction fuel with
  | zero =>
    intro current i s
    simp only [codeLoopAux, PairFacts]
    exact CFrame_refl s
  | succ fuel ih =>
    intro current i s
    by_cases hst : s.stopped = true
    · simp only [codeLoopAux, checkAbortM_true hst, PairFacts]
      exact ⟨CFrame_refl s, fun _ => hst⟩
    · rw [Bool.not_eq_true] at hst
      simp only [codeLoopAux, checkAbortM_false hst]
      cases hcur : current.get? i with
      | none =>
        simp only [hcur, PairFacts]
        exact CFrame_refl s
      | some file =>
        simp only [hcur]
        exact PairFacts_CFrame_compose
          (CFrame_trans (CFrame_logS _ _ _)
            (CFrame_trans (CFrame_doAwait _ _)
              (CFrame_trans (CFrame_setFiles _ _) (CFrame_doAwait _ _)))) (ih _ _ _)

/-- The whole coding phase preserves `CFrame`. -/
theorem codeLoop_facts (env : Env) (current : List ProjectFile) (s : St) :
    PairFacts CFrame s (codeLoop env current s) :=
  codeLoopAux_facts env current.length current 0 s

theorem QFrame_refl (s : St) : QFrame s s := ⟨rfl, rfl, rfl, logsExt_refl _, fun h => h⟩

theorem QFrame_trans {s₁ s₂ s₃ : St} (h₁ : QFrame s₁ s₂) (h₂ : QFrame s₂ s₃) :
    QFrame s₁ s₃ := by
  obtain ⟨a₁, b₁, c₁, d₁, e₁⟩ := h₁
  obtain ⟨a₂, b₂, c₂, d₂, e₂⟩ := h₂
  exact ⟨a₂.trans a₁, b₂.trans b₁, c₂.trans c₁, logsExt_trans d₁ d₂, fun h => e₂ (e₁ h)⟩

theorem QFrame_of_RFrame {s s' : St} (h : RFrame s s') : QFrame s s' :=
  ⟨h.1, h.2.1, h.2.2.2.2.2.1, h.2.2.2.2.2.2.1, h.2.2.2.2.2.2.2⟩

theorem QFrame_logS (m : String) (t : Severity) (s : St) : QFrame s (logS m t s) :=
  QFrame_of_RFrame (RFrame_logS m t s)

/-- Composing the refactor branch of a converge-loop body: the `QFrame` up
to the REFINING write followed by the refactor loop. -/
theorem OutFacts_refineBranch {s t : St} (q : Int) (h : QFrame s t)
    {res : Except (MErr × St) (St × List ProjectFile)}
    (hres : PairFacts RFrame t res) :
    OutFacts QFrame s (refineWrap q res) := by
  cases res with
  | ok p =>
    obtain ⟨s', c⟩ := p
    exact QFrame_trans h (QFrame_of_RFrame hres)
  | error e =>
    obtain ⟨m, s'⟩ := e
    exact ⟨QFrame_trans h (QFrame_of_RFrame hres.1), hres.2⟩

/-- The tail of one converge-loop body preserves `QFrame`. -/
theorem convergeStepRest_facts (env : Env) (current : List ProjectFile) (it : Nat)
    (analysis : Analysis) (s : St) :
    OutFacts QFrame s (convergeStepRest env current it analysis s) := by
  by_cases hst : s.stopped = true
  · simp only [convergeStepRest, checkAbortM_true hst, OutFacts]
    exact ⟨QFrame_refl s, fun _ => hst⟩
  · rw [Bool.not_eq_true] at hst
    simp only [convergeStepRest, checkAbortM_false hst]
    by_cases hdeg : analysis.vibeCheck.degraded = true
    · simp only [hdeg, if_true]
      split
      · simp only [checkAbortM, logS_stopped, restCommitState_stopped, hst, Bool.false_eq_true,
          if_neg, ite_false, reduceCtorEq, if_false]
        refine OutFacts_refineBranch _ ?_ (refactorLoop_facts env _ _ _)
        refine ⟨rfl, rfl, rfl, ⟨[⟨"Vibe degraded. Refactoring.", Severity.warning⟩], by simp [pushLog, setStatus]⟩, ?_⟩
        intro _
        intro hcontra
        simp only [logS_stopped] at hcontra
        exact absurd hcontra (by simp [hst])
      · split
        · simp only [OutFacts, stepResOf]
          refine ⟨rfl, rfl, rfl,
            ⟨[⟨"Vibe degraded. Refactoring.", Severity.warning⟩, ⟨"System stable.", Severity.success⟩],
              by simp [pushLog]⟩, ?_⟩
          intro _ hcontra
          simp only [logS_stopped] at hcontra
          exact absurd hcontra (by simp [hst])
        · split
          · simp only [OutFacts, stepResOf]
            refine ⟨rfl, rfl, rfl,
              ⟨[⟨"Vibe degraded. Refactoring.", Severity.warning⟩, maxIterLog], by simp [pushLog, maxIterLog]⟩, ?_⟩
            intro _ hcontra
            simp only [logS_stopped] at hcontra
            exact absurd hcontra (by simp [hst])
          · simp only [OutFacts, stepResOf]
            refine ⟨rfl, rfl, rfl,
              ⟨[⟨"Vibe degraded. Refactoring.", Severity.warning⟩], by simp [pushLog]⟩, ?_⟩
            intro _ hcontra
            simp only [logS_stopped] at hcontra
            exact absurd hcontra (by simp [hst])
    · rw [Bool.not_eq_true] at hdeg
      simp only [hdeg, Bool.false_eq_true, if_false]
      split
      · simp only [checkAbortM, restCommitState_stopped, hst, Bool.false_eq_true, reduceCtorEq,
          if_false]
        refine OutFacts_refineBranch _ ?_ (refactorLoop_facts env _ _ _)
        refine ⟨rfl, rfl, rfl, ⟨[], by simp [setStatus]⟩, ?_⟩
        intro _ hcontra
        exact absurd hcontra (by simp [hst])
      · split
        · simp only [OutFacts, stepResOf]
          refine ⟨rfl, rfl, rfl, ⟨[⟨"System stable.", Severity.success⟩], by simp [pushLog]⟩, ?_⟩
          intro _ hcontra
          simp only [logS_stopped] at hcontra
          exact absurd hcontra (by simp [hst])
        · split
          · simp only [OutFacts, stepResOf]
            refine ⟨rfl, rfl, rfl, ⟨[maxIterLog], by simp [pushLog, maxIterLog]⟩, ?_⟩
            intro _ hcontra
            simp only [logS_stopped] at hcontra
            exact absurd hcontra (by simp [hst])
          · simp only [OutFacts, stepResOf]
            refine ⟨rfl, rfl, rfl, ⟨[], by simp⟩, ?_⟩
            intro _ hcontra
            exact absurd hcontra (by simp [hst])

theorem StopInv_setAnalysisCalls {s : St} (n : Nat) (hi : StopInv s) :
    StopInv { s with analysisCalls := n } := fun hc => hi hc

/-- Composing one converge-loop body: the pre-analysis prefix (checkpoint,
TESTING write, log, await, counter bump) followed by the tail. -/
theorem OutFacts_prefix_compose {s t : St}
    (hac : t.analysisCalls = s.analysisCalls + 1)
    (hitf : s.app.state.iteration ≤ MAX_ITERATIONS →
      t.app.state.iteration ≤ MAX_ITERATIONS)
    (hmsg : t.app.messages = s.app.messages)
    (hlog : logsExt s.app t.app)
    (hinv : StopInv s → StopInv t)
    {res : Except (MErr × St) StepOut}
    (hres : OutFacts QFrame t res) : OutFacts LFrame s res := by
  cases res with
  | ok out =>
    obtain ⟨qa, qi, qm, ql, qv⟩ := hres
    exact ⟨by omega, by omega, fun h => qi ▸ hitf h, qm.trans hmsg,
      logsExt_trans hlog ql, fun hi => qv (hinv hi)⟩
  | error e =>
    obtain ⟨m, s'⟩ := e
    obtain ⟨⟨qa, qi, qm, ql, qv⟩, hstp⟩ := hres
    exact ⟨⟨by omega, by omega, fun h => qi ▸ hitf h, qm.trans hmsg,
      logsExt_trans hlog ql, fun hi => qv (hinv hi)⟩, hstp⟩

/-- One converge-loop body preserves `LFrame`: exactly one analysis call, no
conversation change, growing logs, bounded iteration, abort-flag/status
coupling; a cancellation exit means the abort flag was observed set. -/
theorem convergeStep_facts (env : Env) (current : List ProjectFile) (it : Nat) (s : St)
    (hit : it ≤ MAX_ITERATIONS) :
    OutFacts LFrame s (convergeStep env current it s) := by
  by_cases hst : s.stopped = true
  · simp only [convergeStep, checkAbortM_true hst, OutFacts]
    exact ⟨⟨le_refl _, by omega, fun h => h, rfl, logsExt_refl _, fun h => h⟩, fun _ => hst⟩
  · rw [Bool.not_eq_true] at hst
    simp only [convergeStep, checkAbortM_false hst]
    refine OutFacts_prefix_compose ?_ ?_ ?_ ?_ ?_ (convergeStepRest_facts env _ _ _ _)
    · simp
    · intro _
      simpa using hit
    · simp
    · exact logsExt_trans ⟨[], by simp⟩
        (logsExt_trans (logsExt_pushLog _ _ _) (doAwait_logsExt _ _))
    · intro _
      exact StopInv_setAnalysisCalls _
        (doAwait_stopInv env (logS_stopInv _ _ (fun hc => absurd hc (by simp [hst]))))

theorem LoopFrame_refl (it : Nat) (s : St) : LoopFrame it s s :=
  ⟨le_refl _, by omega, fun h => h, rfl, logsExt_refl _, fun h => h⟩

theorem LoopFrame_of_LFrame (it : Nat) (hit : it ≤ MAX_ITERATIONS) {s s' : St}
    (h : LFrame s s') : LoopFrame it s s' := by
  obtain ⟨a, b, c, d, e, f⟩ := h
  exact ⟨a, by omega, c, d, e, f⟩

theorem LoopFrame_step_compose (it : Nat) (hit : it ≤ MAX_ITERATIONS) {s t u : St}
    (h1 : LFrame s t) (h2 : LoopFrame (it + 1) t u) : LoopFrame it s u := by
  obtain ⟨a₁, b₁, c₁, d₁, e₁, f₁⟩ := h1
  obtain ⟨a₂, b₂, c₂, d₂, e₂, f₂⟩ := h2
  exact ⟨a₁.trans a₂, by omega, fun h => c₂ (c₁ h), d₂.trans d₁,
    logsExt_trans e₁ e₂, fun h => f₂ (f₁ h)⟩

theorem ResFacts_LoopFrame_compose (it : Nat) (hit : it ≤ MAX_ITERATIONS) {s t : St}
    (h : LFrame s t) {res : Except (MErr × St) StepRes}
    (hres : ResFacts (LoopFrame (it + 1)) t res) : ResFacts (LoopFrame it) s res := by
  cases res with
  | ok r => exact LoopFrame_step_compose it hit h hres
  | error e =>
    obtain ⟨m, s'⟩ := e
    exact ⟨LoopFrame_step_compose it hit h hres.1, hres.2⟩

/-- The converge loop preserves `LoopFrame`: at most `MAX_ITERATIONS + 1 -
it` further analysis calls, no conversation change, growing logs, bounded
iteration field, abort-flag/status coupling; a cancellation exit means the
abort flag was observed set. -/
theorem convergeLoopAux_facts (env : Env) :
    ∀ (fuel : Nat) (current : List ProjectFile) (it : Nat) (score : Int) (s : St),
    ResFacts (LoopFrame it) s (convergeLoopAux env fuel current it score s) := by
  intro fuel
  induction fuel with
  | zero =>
    intro current it score s
    simp only [convergeLoopAux, ResFacts]
    exact LoopFrame_refl it s
  | succ fuel ih =>
    intro current it score s
    simp only [convergeLoopAux]
    split
    · next hcond =>
      obtain ⟨hit, hsc⟩ := hcond
      have hstep := convergeStep_facts env current it s hit
      cases hres : convergeStep env current it s with
      | error e =>
        rw [hres] at hstep
        obtain ⟨m, s'⟩ := e
        exact ⟨LoopFrame_of_LFrame it hit hstep.1, hstep.2⟩
      | ok out =>
        rw [hres] at hstep
        cases out with
        | refined r =>
          exact ResFacts_LoopFrame_compose it hit hstep (ih _ _ _ _)
        | plain r =>
          exact ResFacts_LoopFrame_compose it hit hstep (ih _ _ _ _)
        | stable r =>
          exact LoopFrame_of_LFrame it hit hstep
        | exhausted r =>
          exact LoopFrame_of_LFrame it hit hstep
    · exact LoopFrame_refl it s

/-! ### Marathon phase facts -/

/-- Phase 4 preserves the analysis counter and iteration, appends exactly the
mission message on success, and maintains the abort-flag/status coupling. -/
theorem marathonFinish_facts (env : Env) (s : St) (hinv : StopInv s) :
    FinFacts s (marathonFinish env s) := by
  by_cases hst : s.stopped = true
  · simp only [marathonFinish, checkAbortM_true hst]
    exact ⟨rfl, rfl, rfl, hinv, fun _ => hst⟩
  · rw [Bool.not_eq_true] at hst
    simp only [marathonFinish, checkAbortM_false hst]
    cases hrep : generateFinalReport env.reportText with
    | error e =>
      simp only [hrep, FinFacts]
      refine ⟨by simp, by simp, by simp, ?_, fun h => by cases h⟩

      exact doAwait_stopInv env (fun hc => absurd hc (by simp [hst]))
    | ok rep =>
      simp only [hrep, FinFacts]
      refine ⟨by simp, by simp, by simp [pushMsg, missionMsg], ?_⟩
      intro hc
      have h1 : StopInv (doAwait env { s with app := setStatus AgentStatus.COMPLETED s.app }) :=
        doAwait_stopInv env (fun hc' => absurd hc' (by simp [hst]))
      simpa [logS, pushLog, pushMsg, setStatus] using h1 (by simpa using hc)

/-- Composing Phase 3 with Phase 4. -/
theorem PhaseFacts_conv_compose {s t : St}
    (hac : t.analysisCalls = s.analysisCalls)
    (hit : t.app.state.iteration = s.app.state.iteration)
    (hmsg : t.app.messages = s.app.messages)
    (hinvt : StopInv t)
    {res : Except (MErr × St) StepRes}
    (hres : ResFacts (LoopFrame 1) t res)
    {k : St → Except (MErr × St) St}
    (hk : ∀ r : StepRes, res = Except.ok r → StopInv r.s → FinFacts r.s (k r.s)) :
    PhaseFacts s (convCont k res) := by
  have hM : MAX_ITERATIONS + 1 - 1 = MAX_ITERATIONS := by omega
  cases res with
  | ok r =>
    obtain ⟨la, lb, lc, ld, le, lf⟩ := hres
    have hfin := hk r rfl (lf hinvt)
    cases hkr : k r.s with
    | ok s' =>
      rw [hkr] at hfin
      obtain ⟨fa, fb, fc, fd⟩ := hfin
      simp only [convCont, hkr, PhaseFacts]
      refine ⟨by omega, ?_, ?_, fd⟩
      · intro h
        rw [fb]
        exact lc (hit ▸ h)
      · rw [fc, ld, hmsg]
    | error e =>
      obtain ⟨m, s'⟩ := e
      rw [hkr] at hfin
      obtain ⟨fa, fb, fc, fd, fe⟩ := hfin
      simp only [convCont, hkr, PhaseFacts]
      refine ⟨by omega, ?_, ?_, fd, fe⟩
      · intro h
        rw [fb]
        exact lc (hit ▸ h)
      · rw [fc, ld, hmsg]
  | error e =>
    obtain ⟨m, s'⟩ := e
    obtain ⟨⟨la, lb, lc, ld, le, lf⟩, lg⟩ := hres
    refine ⟨by omega, ?_, ld.trans hmsg, lf hinvt, lg⟩
    intro h
    exact lc (hit ▸ h)

/-- Composing Phase 2 with Phases 3-4. -/
theorem PhaseFacts_code_compose {s t : St}
    (hac : t.analysisCalls = s.analysisCalls)
    (hit : t.app.state.iteration = s.app.state.iteration)
    (hmsg : t.app.messages = s.app.messages)
    (hinvt : StopInv t)
    {res : Except (MErr × St) (St × List ProjectFile)}
    (hres : PairFacts CFrame t res)
    {k : St → List ProjectFile → Except (MErr × St) St}
    (hk : ∀ u cur, res = Except.ok (u, cur) → StopInv u → PhaseFacts u (k u cur)) :
    PhaseFacts s (codeCont k res) := by
  cases res with
  | ok p =>
    obtain ⟨u, cur⟩ := p
    obtain ⟨⟨ra, rb, rc, rd, re, rf, rg, rh⟩, rcal⟩ := hres
    have hph := hk u cur rfl (rh hinvt)
    cases hkr : k u cur with
    | ok s' =>
      rw [hkr] at hph
      obtain ⟨pa, pb, pc, pd⟩ := hph
      simp only [codeCont, hkr, PhaseFacts]
      refine ⟨by omega, ?_, ?_, pd⟩
      · intro h
        exact pb (by rw [rb, hit]; exact h)
      · rw [pc, rf, hmsg]
    | error e =>
      obtain ⟨m, s'⟩ := e
      rw [hkr] at hph
      obtain ⟨pa, pb, pc, pd, pe⟩ := hph
      simp only [codeCont, hkr, PhaseFacts]
      refine ⟨by omega, ?_, ?_, pd, pe⟩
      · intro h
        exact pb (by rw [rb, hit]; exact h)
      · rw [pc, rf, hmsg]
  | error e =>
    obtain ⟨m, s'⟩ := e
    obtain ⟨⟨⟨ra, rb, rc, rd, re, rf, rg, rh⟩, rcal⟩, rst⟩ := hres
    refine ⟨by omega, ?_, rf.trans hmsg, rh hinvt, rst⟩
    intro h
    rw [rb, hit]
    exact h

/-- Phases 3-4 satisfy `PhaseFacts`. -/
theorem marathonConverge_facts (env : Env) (current : List ProjectFile) (s : St)
    (hinv : StopInv s) : PhaseFacts s (marathonConverge env current s) := by
  simp only [marathonConverge, convergeLoop]
  refine PhaseFacts_conv_compose ?_ ?_ ?_ ?_ (convergeLoopAux_facts env _ _ _ _ _) ?_
  · simp
  · simp
  · simp
  · exact logS_stopInv _ _ hinv
  · intro r _ hinvr
    exact marathonFinish_facts env r.s hinvr

/-- Phases 2-4 satisfy `PhaseFacts` (entered just past a passed checkpoint,
so the abort flag is clear). -/
theorem marathonCode_facts (env : Env) (planFiles : List ProjectFile) (s : St)
    (hs : s.stopped = false) : PhaseFacts s (marathonCode env planFiles s) := by
  simp only [marathonCode, codeLoop]
  refine PhaseFacts_code_compose ?_ ?_ ?_ ?_ (codeLoopAux_facts env _ _ _ _) ?_
  · simp
  · simp
  · simp
  · intro hc
    exact absurd hc (by simp [hs])
  · intro u cur _ hinvu
    exact marathonConverge_facts env cur u hinvu

/-- The post-plan checkpoint and Phases 2-4 satisfy `PhaseFacts`. -/
theorem marathonAfterPlan_facts (env : Env) (plan : Plan) (s : St)
    (hinv : StopInv s) : PhaseFacts s (marathonAfterPlan env plan s) := by
  by_cases hst : s.stopped = true
  · simp only [marathonAfterPlan, checkAbortM_true hst]
    exact ⟨by omega, fun h => h, rfl, hinv, fun _ => hst⟩
  · rw [Bool.not_eq_true] at hst
    simp only [marathonAfterPlan, checkAbortM_false hst]
    exact marathonCode_facts env plan.files s hst

theorem RunFacts_of_phase {prev : AppState} {s : St}
    (hac : s.analysisCalls = 0)
    (hit : s.app.state.iteration = 0)
    (hmsg : s.app.messages = prev.messages ++ [ackMsg])
    {res : Except (MErr × St) St} (hres : PhaseFacts s res) : RunFacts prev res := by
  cases res with
  | ok s' =>
    obtain ⟨pa, pb, pc, pd⟩ := hres
    refine ⟨by omega, ?_, ?_, pd⟩
    · have := pb (by omega)
      exact this
    · rw [pc, hmsg]
      simp
  | error e =>
    obtain ⟨m, s'⟩ := e
    obtain ⟨pa, pb, pc, pd, pe⟩ := hres
    refine ⟨by omega, ?_, pc.trans hmsg, pd, pe⟩
    exact pb (by omega)

/-- Every marathon run satisfies `RunFacts`: at most `MAX_ITERATIONS`
analysis calls, iteration within budget, the conversation extended by
exactly the acknowledgment plus (on success) the mission message, and the
abort-flag/status coupling at the end. -/
theorem runMarathon_facts (env : Env) (promptText : String) (prev : AppState) :
    RunFacts prev (runMarathon env promptText prev) := by
  simp only [runMarathon]
  rw [checkAbortM_false rfl]
  cases hp : env.planResult with
  | error e =>
    simp only [hp]
    refine ⟨by simp, by simp [marathonInit, INITIAL_STATE], ?_, ?_, fun h => by cases h⟩
    · simp [marathonInit, ackMsg]
    · exact doAwait_stopInv env (logS_stopInv _ _ (fun hc => absurd hc (by simp)))
  | ok plan =>
    simp only [hp]
    refine RunFacts_of_phase ?_ ?_ ?_ (marathonAfterPlan_facts env plan _ ?_)
    · simp
    · simp [marathonInit, INITIAL_STATE]
    · simp [marathonInit, ackMsg]
    · exact doAwait_stopInv env (logS_stopInv _ _ (fun hc => absurd hc (by simp)))

/-! ### Normal forms of a converge-loop body without cancellation -/

/-- With the abort flag clear and no STOP click scheduled, one converge-loop
body is its tail applied to the analysis indexed by the entry state's
counter, over the committed pre-analysis state. -/
theorem convergeStep_eq (env : Env) (current : List ProjectFile) (it : Nat) (s : St)
    (hs : s.stopped = false) (hd : env.stopDuring = none) :
    convergeStep env current it s =
      convergeStepRest env current it (stepAnalysis env s) (stepCommitState it s) := by
  simp only [convergeStep, checkAbortM_false hs, logS_app]
  rw [doAwait_none hd]
  rfl

/-- With the abort flag clear, no STOP click scheduled and every refactor
call resolving, the refactor loop succeeds, performs exactly one refactor
call per target, and preserves the artifact-list length. -/
theorem refactorLoop_run (env : Env) (hd : env.stopDuring = none)
    (hr : ∀ k, ∃ t, env.refactorText k = Except.ok t) :
    ∀ (targets current : List ProjectFile) (s : St), s.stopped = false →
    ∃ s' cur', refactorLoop env targets current s = Except.ok (s', cur')
      ∧ s'.stopped = false
      ∧ s'.refactorCalls = s.refactorCalls + targets.length
      ∧ cur'.length = current.length := by
  intro targets
  induction targets with
  | nil =>
    intro current s hs
    exact ⟨s, current, rfl, hs, by simp, rfl⟩
  | cons file rest ih =>
    intro current s hs
    simp only [refactorLoop, checkAbortM_false hs]
    rw [doAwait_none hd]
    simp only [logS_refactorCalls, logS_app, logS_stopped, logS_analysisCalls]
    obtain ⟨t, ht⟩ := hr s.refactorCalls
    rw [ht]
    simp only [refactorCode]
    cases hfi : findIdxO (fun f => f.name == file.name) current with
    | some idx =>
      obtain ⟨s', cur', heq, hs', hrc, hlen⟩ :=
        ih (listSet current idx
            (ProjectFile.mk file.name file.language
              (refactorOkContent (Except.ok t) file) FileStatus.verified))
          { s with
            app := setFiles (listSet current idx
                (ProjectFile.mk file.name file.language
                  (refactorOkContent (Except.ok t) file) FileStatus.verified))
              (pushLog ("Refactoring " ++ file.name ++ "...") Severity.info s.app),
            awaits := s.awaits + 1,
            refactorCalls := s.refactorCalls + 1 }
          (by simp [hs])
      refine ⟨s', cur', heq, hs', ?_, ?_⟩
      · dsimp only at hrc
        rw [hrc]
        simp only [List.length_cons]
        omega
      · rw [hlen, length_listSet]
    | none =>
      obtain ⟨s', cur', heq, hs', hrc, hlen⟩ :=
        ih current
          { s with
            app := pushLog ("Refactoring " ++ file.name ++ "...") Severity.info s.app,
            awaits := s.awaits + 1,
            refactorCalls := s.refactorCalls + 1 }
          (by simp [hs])
      refine ⟨s', cur', heq, hs', ?_, hlen⟩
      dsimp only at hrc
      rw [hrc]
      simp only [List.length_cons]
      omega

/-- With the abort flag clear, no STOP click scheduled and every refactor
call resolving, the refactor branch of one converge-loop body succeeds,
performs one refactor call per target, keeps the file count and preserves
`RFrame`. -/
theorem refineBranch_run (env : Env) (hd : env.stopDuring = none)
    (hr : ∀ k, ∃ t, env.refactorText k = Except.ok t)
    (q : Int) (targets current : List ProjectFile) (S : St) (hS : S.stopped = false) :
    ∃ s' cur',
      refineWrap q (refactorLoop env targets current S)
        = Except.ok (StepOut.refined ⟨s', cur', q⟩)
      ∧ s'.stopped = false ∧ RFrame S s'
      ∧ s'.refactorCalls = S.refactorCalls + targets.length
      ∧ cur'.length = current.length := by
  obtain ⟨s', cur', heq, hs', hrc, hlen⟩ := refactorLoop_run env hd hr targets current S hS
  have hfacts := refactorLoop_facts env targets current S
  rw [heq] at hfacts
  exact ⟨s', cur', by rw [heq]; rfl, hs', hfacts, hrc, hlen⟩

/-- With the abort flag clear, no STOP click scheduled and every refactor
call resolving, the tail of one converge-loop body succeeds and ends the way
`restTag` says: the refactor branch fires exactly when the analysis has a
failing result or a degraded vibe and budget remains (performing one
refactor call per target), the results are committed wholesale, and the
exhaustion break records its warning log. -/
theorem convergeStepRest_run (env : Env) (current : List ProjectFile) (it : Nat)
    (analysis : Analysis) (s : St) (hs : s.stopped = false) (hd : env.stopDuring = none)
    (hr : ∀ k, ∃ t, env.refactorText k = Except.ok t) :
    ∃ r : StepRes,
      convergeStepRest env current it analysis s = Except.ok (restTag it analysis r)
      ∧ r.s.stopped = false
      ∧ r.qualityScore = analysis.qualityScore
      ∧ r.s.analysisCalls = s.analysisCalls
      ∧ r.s.app.state.iteration = s.app.state.iteration
      ∧ r.s.app.state.testResults = analysis.results
      ∧ r.s.app.state.qualityScore = analysis.qualityScore
      ∧ r.s.app.messages = s.app.messages
      ∧ logsExt s.app r.s.app
      ∧ ((restNeedsRefine analysis ∧ it < MAX_ITERATIONS) →
          r.s.refactorCalls = s.refactorCalls + (refactorTargets current).length
          ∧ r.current.length = current.length)
      ∧ (¬ (restNeedsRefine analysis ∧ it < MAX_ITERATIONS) →
          r.s.refactorCalls = s.refactorCalls ∧ r.current = current)
      ∧ (¬ (restNeedsRefine analysis ∧ it < MAX_ITERATIONS) →
          ¬ (analysis.qualityScore ≥ 95 ∧ analysis.vibeCheck.degraded = false) →
          it ≥ MAX_ITERATIONS → maxIterLog ∈ r.s.app.state.logs) := by
  simp only [convergeStepRest, checkAbortM_false hs]
  by_cases hbr : restNeedsRefine analysis ∧ it < MAX_ITERATIONS
  · have hcond : ((decide (0 < (analysis.results.filter (fun r => !r.passed)).length)
        || analysis.vibeCheck.degraded)
        && decide (it < MAX_ITERATIONS)) = true := by
      obtain ⟨hnr, hlt⟩ := hbr
      unfold restNeedsRefine at hnr
      rcases hnr with hbug | hdeg
      · simp [hbug, hlt]
      · simp [hdeg, hlt]
    rw [hcond]
    simp only [if_true]
    by_cases hdeg : analysis.vibeCheck.degraded = true
    · simp only [hdeg, if_true]
      have h2 : (logS "Vibe degraded. Refactoring." Severity.warning
          (restCommitState it analysis s)).stopped = false := by simp [hs]
      simp only [checkAbortM_false h2]
      obtain ⟨s', cur', heq, hs', hfr, hrc, hlen⟩ :=
        refineBranch_run env hd hr analysis.qualityScore (refactorTargets current) current
          { app := setStatus AgentStatus.REFINING
              (logS "Vibe degraded. Refactoring." Severity.warning
                (restCommitState it analysis s)).app,
            stopped := (logS "Vibe degraded. Refactoring." Severity.warning
              (restCommitState it analysis s)).stopped,
            awaits := (logS "Vibe degraded. Refactoring." Severity.warning
              (restCommitState it analysis s)).awaits,
            analysisCalls := (logS "Vibe degraded. Refactoring." Severity.warning
              (restCommitState it analysis s)).analysisCalls,
            refactorCalls := (logS "Vibe degraded. Refactoring." Severity.warning
              (restCommitState it analysis s)).refactorCalls }
          (by simp [hs])
      obtain ⟨fa, fb, fc, fd, fe, ff, fg, fh⟩ := hfr
      refine ⟨⟨s', cur', analysis.qualityScore⟩, ?_, hs', rfl, ?_, ?_, ?_, ?_, ?_, ?_,
        fun _ => ⟨by simpa using hrc, hlen⟩, fun hc => absurd hbr hc, fun hc => absurd hbr hc⟩
      · rw [heq]
        simp [restTag, hbr]
      · simpa using fa
      · simpa using fb
      · simpa using fd
      · simpa using fc
      · simpa using ff
      · refine logsExt_trans ?_ fg
        exact ⟨[⟨"Vibe degraded. Refactoring.", Severity.warning⟩], by simp⟩
    · rw [Bool.not_eq_true] at hdeg
      simp only [hdeg, Bool.false_eq_true, if_false]
      have h2 : (restCommitState it analysis s).stopped = false := by simp [hs]
      simp only [checkAbortM_false h2]
      obtain ⟨s', cur', heq, hs', hfr, hrc, hlen⟩ :=
        refineBranch_run env hd hr analysis.qualityScore (refactorTargets current) current
          { app := setStatus AgentStatus.REFINING (restCommitState it analysis s).app,
            stopped := (restCommitState it analysis s).stopped,
            awaits := (restCommitState it analysis s).awaits,
            analysisCalls := (restCommitState it analysis s).analysisCalls,
            refactorCalls := (restCommitState it analysis s).refactorCalls }
          (by simp [hs])
      obtain ⟨fa, fb, fc, fd, fe, ff, fg, fh⟩ := hfr
      refine ⟨⟨s', cur', analysis.qualityScore⟩, ?_, hs', rfl, ?_, ?_, ?_, ?_, ?_, ?_,
        fun _ => ⟨by simpa using hrc, hlen⟩, fun hc => absurd hbr hc, fun hc => absurd hbr hc⟩
      · rw [heq]
        simp [restTag, hbr]
      · simpa using fa
      · simpa using fb
      · simpa using fd
      · simpa using fc
      · simpa using ff
      · refine logsExt_trans ?_ fg
        exact ⟨[], by simp⟩
  · have hcond : ((decide (0 < (analysis.results.filter (fun r => !r.passed)).length)
        || analysis.vibeCheck.degraded)
        && decide (it < MAX_ITERATIONS)) = false := by
      rw [Bool.and_eq_false_iff]
      by_cases hlt : it < MAX_ITERATIONS
      · left
        have hnr : ¬ restNeedsRefine analysis := fun h => hbr ⟨h, hlt⟩
        unfold restNeedsRefine at hnr
        push_neg at hnr
        obtain ⟨h1, h2⟩ := hnr
        simp only [Bool.or_eq_false_iff, decide_eq_false_iff_not]
        exact ⟨by omega, by simpa using h2⟩
      · right
        simpa using hlt
    rw [hcond]
    simp only [Bool.false_eq_true, if_false]
    by_cases hdeg : analysis.vibeCheck.degraded = true
    · simp only [hdeg, if_true]
      by_cases hq : analysis.qualityScore ≥ 95 && !analysis.vibeCheck.degraded
      · rw [hdeg] at hq
        simp at hq
      · rw [if_neg (by simp)]
        by_cases hge : it ≥ MAX_ITERATIONS
        · rw [if_pos (by simpa using hge)]
          refine ⟨⟨logS "Max iterations reached." Severity.warning
              (logS "Vibe degraded. Refactoring." Severity.warning
                (restCommitState it analysis s)), current, analysis.qualityScore⟩,
            ?_, by simp [hs], rfl, by simp, by simp, by simp, by simp, by simp, ?_,
            fun hc => absurd hc hbr, fun _ => ⟨by simp, rfl⟩, ?_⟩
          · simp only [restTag]
            rw [if_neg hbr, if_neg (by simp [hdeg]), if_pos hge]
          · exact ⟨[⟨"Vibe degraded. Refactoring.", Severity.warning⟩, maxIterLog],
              by simp [maxIterLog, pushLog]⟩
          · intro _ _ _
            simp [maxIterLog, pushLog]
        · rw [if_neg (by simpa using hge)]
          refine ⟨⟨logS "Vibe degraded. Refactoring." Severity.warning
              (restCommitState it analysis s), current, analysis.qualityScore⟩,
            ?_, by simp [hs], rfl, by simp, by simp, by simp, by simp, by simp, ?_,
            fun hc => absurd hc hbr, fun _ => ⟨by simp, rfl⟩, fun _ _ hge2 => absurd hge2 hge⟩
          · simp only [restTag]
            rw [if_neg hbr, if_neg (by simp [hdeg]), if_neg hge]
          · exact ⟨[⟨"Vibe degraded. Refactoring.", Severity.warning⟩], by simp [pushLog]⟩
    · rw [Bool.not_eq_true] at hdeg
      simp only [hdeg, Bool.false_eq_true, if_false]
      by_cases hq : analysis.qualityScore ≥ 95
      · rw [if_pos (by simp [hq, hdeg])]
        refine ⟨⟨logS "System stable." Severity.success (restCommitState it analysis s),
            current, analysis.qualityScore⟩,
          ?_, by simp [hs], rfl, by simp, by simp, by simp, by simp, by simp, ?_,
          fun hc => absurd hc hbr, fun _ => ⟨by simp, rfl⟩,
          fun _ hc _ => absurd (by simp [hq]) hc⟩
        · simp only [restTag]
          rw [if_neg hbr, if_pos (show analysis.qualityScore ≥ 95 ∧
            analysis.vibeCheck.degraded = false from ⟨hq, hdeg⟩)]
        · exact ⟨[⟨"System stable.", Severity.success⟩], by simp [pushLog]⟩
      · rw [if_neg (by simp [hq])]
        by_cases hge : it ≥ MAX_ITERATIONS
        · rw [if_pos (by simpa using hge)]
          refine ⟨⟨logS "Max iterations reached." Severity.warning
              (restCommitState it analysis s), current, analysis.qualityScore⟩,
            ?_, by simp [hs], rfl, by simp, by simp, by simp, by simp, by simp, ?_,
            fun hc => absurd hc hbr, fun _ => ⟨by simp, rfl⟩, ?_⟩
          · simp only [restTag]
            rw [if_neg hbr, if_neg (by simp [hq]), if_pos hge]
          · exact ⟨[maxIterLog], by simp [maxIterLog, pushLog]⟩
          · intro _ _ _
            simp [maxIterLog, pushLog]
        · rw [if_neg (by simpa using hge)]
          refine ⟨⟨restCommitState it analysis s, current, analysis.qualityScore⟩,
            ?_, by simp [hs], rfl, by simp, by simp, by simp, by simp, by simp, ?_,
            fun hc => absurd hc hbr, fun _ => ⟨by simp, rfl⟩, fun _ _ hge2 => absurd hge2 hge⟩
          · simp only [restTag]
            rw [if_neg hbr, if_neg (by simp [hq]), if_neg hge]
          · exact ⟨[], by simp⟩

/-! ### The success path always ends COMPLETED -/

/-- Phase 4 stamps COMPLETED before anything else and nothing after it
touches the status, so a successful Phase 4 without a STOP click ends with
status COMPLETED. -/
theorem marathonFinish_ok_status (env : Env) (hd : env.stopDuring = none) (s s' : St)
    (h : marathonFinish env s = Except.ok s') :
    s'.app.state.status = AgentStatus.COMPLETED := by
  by_cases hst : s.stopped = true
  · rw [marathonFinish, checkAbortM_true hst] at h
    cases h
  · rw [Bool.not_eq_true] at hst
    rw [marathonFinish, checkAbortM_false hst] at h
    cases hrep : generateFinalReport env.reportText with
    | error e =>
      simp only [hrep] at h
      cases h
    | ok rep =>
      simp only [hrep, Except.ok.injEq] at h
      subst h
      simp [logS, pushLog, pushMsg, setStatus, doAwait_none hd]

/-- A successful `convCont` outcome comes from a successful loop result fed
into the continuation. -/
theorem convCont_ok (k : St → Except (MErr × St) St) (res : Except (MErr × St) StepRes)
    (s' : St) (h : convCont k res = Except.ok s') :
    ∃ r : StepRes, res = Except.ok r ∧ k r.s = Except.ok s' := by
  cases res with
  | error e => rw [convCont] at h; cases h
  | ok r => exact ⟨r, rfl, h⟩

/-- A successful `codeCont` outcome comes from a successful coding-phase
result fed into the continuation. -/
theorem codeCont_ok (k : St → List ProjectFile → Except (MErr × St) St)
    (res : Except (MErr × St) (St × List ProjectFile)) (s' : St)
    (h : codeCont k res = Except.ok s') :
    ∃ u cur, res = Except.ok (u, cur) ∧ k u cur = Except.ok s' := by
  cases res with
  | error e => rw [codeCont] at h; cases h
  | ok p => exact ⟨p.1, p.2, rfl, h⟩

/-- Without a STOP click, every marathon run that returns normally ends with
status COMPLETED: the only normal exit is through Phase 4. In particular a
budget-exhaustion exit of the converge loop is a normal exit, so it too ends
COMPLETED, never FAILED. -/
theorem runMarathon_ok_status (env : Env) (p : String) (prev : AppState) (s' : St)
    (hd : env.stopDuring = none) (h : runMarathon env p prev = Except.ok s') :
    s'.app.state.status = AgentStatus.COMPLETED := by
  simp only [runMarathon] at h
  rw [checkAbortM_false rfl] at h
  cases hp : env.planResult with
  | error e =>
    simp only [hp] at h
    cases h
  | ok plan =>
    simp only [hp, doAwait_none hd, marathonAfterPlan, checkAbortM, logS_stopped,
      Bool.false_eq_true, if_false, marathonCode] at h
    obtain ⟨u, cur, _, hconv⟩ := codeCont_ok _ _ _ h
    rw [marathonConverge] at hconv
    obtain ⟨r, _, hfin⟩ := convCont_ok _ _ _ hconv
    exact marathonFinish_ok_status env hd r.s s' hfin

/-! ### Per-target characterisation of the refactor loop -/

/-- `findIndex` over a name predicate only looks at names, so it is stable
under any rewrite of the artifact list that keeps the name column. -/
theorem findIdxO_name_congr (x : String) (l2 l : List ProjectFile)
    (h : l2.map (fun g => g.name) = l.map (fun g => g.name)) :
    findIdxO (fun f => f.name == x) l2 = findIdxO (fun f => f.name == x) l := by
  induction l generalizing l2 with
  | nil =>
    cases l2 with
    | nil => rfl
    | cons a as => simp at h
  | cons b bs ih =>
    cases l2 with
    | nil => simp at h
    | cons a as =>
      simp only [List.map_cons, List.cons.injEq] at h
      obtain ⟨h1, h2⟩ := h
      simp only [findIdxO, h1, ih as h2]

/-- With the abort flag clear, no STOP click scheduled, every refactor call
resolving and no two targets sharing a name, the refactor loop succeeds,
makes one refactor call per target in order, keeps the name column of the
artifact list, leaves every artifact whose name is not targeted untouched,
and overwrites the first artifact of each target's name with that target's
refactor-call result at status `verified`. -/
theorem refactorLoop_char (env : Env) (hd : env.stopDuring = none)
    (hr : ∀ k, ∃ t, env.refactorText k = Except.ok t) :
    ∀ (targets cur : List ProjectFile) (s : St), s.stopped = false →
      (targets.map (fun g => g.name)).Nodup →
      ∃ s' cur', refactorLoop env targets cur s = Except.ok (s', cur')
        ∧ s'.refactorCalls = s.refactorCalls + targets.length
        ∧ cur'.map (fun g => g.name) = cur.map (fun g => g.name)
        ∧ (∀ i f, cur.get? i = some f →
            (∀ g ∈ targets, (g.name == f.name) = false) → cur'.get? i = some f)
        ∧ (∀ p g, targets.get? p = some g →
            ∀ i, findIdxO (fun f => f.name == g.name) cur = some i →
              cur'.get? i = some (ProjectFile.mk g.name g.language
                (refactorOkContent (env.refactorText (s.refactorCalls + p)) g)
                FileStatus.verified)) := by
  intro targets
  induction targets with
  | nil =>
    intro cur s hs hnd
    exact ⟨s, cur, rfl, by simp, rfl, fun i f hf _ => hf, fun p g hp => nomatch hp⟩
  | cons file rest ih =>
    intro cur s hs hnd
    simp only [List.map_cons, List.nodup_cons] at hnd
    obtain ⟨hng, hndr⟩ := hnd
    simp only [refactorLoop, checkAbortM_false hs]
    rw [doAwait_none hd]
    simp only [logS_refactorCalls, logS_app, logS_stopped, logS_analysisCalls]
    obtain ⟨t, ht⟩ := hr s.refactorCalls
    rw [ht]
    simp only [refactorCode]
    cases hfi : findIdxO (fun f => f.name == file.name) cur with
    | some idx =>
      obtain ⟨f0, hf0, hp0⟩ := findIdxO_get? _ _ _ hfi
      have hf0name : f0.name = file.name := by simpa using hp0
      have hidx : idx < cur.length := by
        rcases List.get?_eq_some.1 hf0 with ⟨hlt, _⟩
        exact hlt
      obtain ⟨s', cur', heq, hrc, hnames, hun, htg⟩ :=
        ih (listSet cur idx
            (ProjectFile.mk file.name file.language
              (refactorOkContent (Except.ok t) file) FileStatus.verified))
          { s with
            app := setFiles (listSet cur idx
                (ProjectFile.mk file.name file.language
                  (refactorOkContent (Except.ok t) file) FileStatus.verified))
              (pushLog ("Refactoring " ++ file.name ++ "...") Severity.info s.app),
            awaits := s.awaits + 1,
            refactorCalls := s.refactorCalls + 1 }
          (by simp [hs]) hndr
      have hnames1 : (listSet cur idx
            (ProjectFile.mk file.name file.language
              (refactorOkContent (Except.ok t) file) FileStatus.verified)).map
              (fun g => g.name)
          = cur.map (fun g => g.name) :=
        map_listSet (fun g => g.name) cur idx
          (ProjectFile.mk file.name file.language
            (refactorOkContent (Except.ok t) file) FileStatus.verified)
          f0 hf0 hf0name.symm
      refine ⟨s', cur', heq, ?_, hnames.trans hnames1, ?_, ?_⟩
      · dsimp only at hrc
        rw [hrc]
        simp only [List.length_cons]
        omega
      · intro i f hf hall
        have hfile_ne : (file.name == f.name) = false := hall file (List.mem_cons_self _ _)
        have hine : i ≠ idx := by
          intro hcontra
          subst hcontra
          rw [hf0] at hf
          cases hf
          rw [hf0name] at hfile_ne
          simp at hfile_ne
        refine hun i f ?_ (fun g hg => hall g (List.mem_cons_of_mem _ hg))
        rw [get?_listSet_ne cur idx _ i hine]
        exact hf
      · intro p g hp i hfi2
        cases p with
        | zero =>
          simp only [List.get?] at hp
          cases hp
          rw [hfi] at hfi2
          cases hfi2
          have hallrest : ∀ g2 ∈ rest,
              (g2.name == (ProjectFile.mk file.name file.language
                (refactorOkContent (Except.ok t) file) FileStatus.verified).name) = false := by
            intro g2 hg2
            have hne : g2.name ≠ file.name :=
              fun hcontra => hng (hcontra ▸ List.mem_map_of_mem (fun g => g.name) hg2)
            simpa using hne
          have hfin := hun idx _ (get?_listSet_self cur idx _ hidx) hallrest
          rw [hfin, Nat.add_zero, ht]
        | succ q =>
          simp only [List.get?] at hp
          have hfi1 : findIdxO (fun f => f.name == g.name)
              (listSet cur idx
                (ProjectFile.mk file.name file.language
                  (refactorOkContent (Except.ok t) file) FileStatus.verified)) = some i := by
            rw [findIdxO_name_congr g.name _ _ hnames1]
            exact hfi2
          have hres := htg q g hp i hfi1
          dsimp only at hres
          have harith : s.refactorCalls + 1 + q = s.refactorCalls + (q + 1) := by omega
          rw [harith] at hres
          exact hres
    | none =>
      obtain ⟨s', cur', heq, hrc, hnames, hun, htg⟩ :=
        ih cur
          { s with
            app := pushLog ("Refactoring " ++ file.name ++ "...") Severity.info s.app,
            awaits := s.awaits + 1,
            refactorCalls := s.refactorCalls + 1 }
          (by simp [hs]) hndr
      refine ⟨s', cur', heq, ?_, hnames, ?_, ?_⟩
      · dsimp only at hrc
        rw [hrc]
        simp only [List.length_cons]
        omega
      · intro i f hf hall
        exact hun i f hf (fun g hg => hall g (List.mem_cons_of_mem _ hg))
      · intro p g hp i hfi2
        cases p with
        | zero =>
          simp only [List.get?] at hp
          cases hp
          rw [hfi] at hfi2
          cases hfi2
        | succ q =>
          simp only [List.get?] at hp
          have hres := htg q g hp i hfi2
          dsimp only at hres
          have harith : s.refactorCalls + 1 + q = s.refactorCalls + (q + 1) := by omega
          rw [harith] at hres
          exact hres

/-! ### Claims C1 and C2 -/

/-- C1 (corrected): the loop guard compares only `qualityScore` with 95 and
the refactor branch fires on `bugCount > 0 || degraded` alone, so the body's
outcome is exactly `restTag` of its analysis: the refactor branch fires
whenever there is a failing finding or a degraded vibe and budget remains —
even when that same analysis scored `qualityScore ≥ 95` with a clean vibe —
and the stable break happens only when the analysis scored at least 95 with
a clean vibe and no failing finding. -/
theorem claim_C1 (env : Env) (current : List ProjectFile) (it : Nat) (s : St)
    (hs : s.stopped = false) (hd : env.stopDuring = none)
    (hr : ∀ k, ∃ t, env.refactorText k = Except.ok t) :
    ∃ r : StepRes,
      convergeStep env current it s = Except.ok (restTag it (stepAnalysis env s) r)
      ∧ (restNeedsRefine (stepAnalysis env s) ∧ it < MAX_ITERATIONS →
          convergeStep env current it s = Except.ok (StepOut.refined r))
      ∧ (¬ (restNeedsRefine (stepAnalysis env s) ∧ it < MAX_ITERATIONS) →
          (stepAnalysis env s).qualityScore ≥ 95
            ∧ (stepAnalysis env s).vibeCheck.degraded = false →
          convergeStep env current it s = Except.ok (StepOut.stable r)) := by
  rw [convergeStep_eq env current it s hs hd]
  have hsc : (stepCommitState it s).stopped = false := by simp [stepCommitState, hs]
  obtain ⟨r, heq, hfacts⟩ := convergeStepRest_run env current it (stepAnalysis env s)
    (stepCommitState it s) hsc hd hr
  refine ⟨r, heq, ?_, ?_⟩
  · intro hbr
    rw [heq]
    simp [restTag, hbr]
  · intro hbr hstable
    rw [heq]
    simp [restTag, hbr, hstable]

/-- Witness for C1 at concrete inputs: a fresh clear state, the benign
environment, iteration 1. -/
theorem claim_C1_witness :
    stBase.stopped = false ∧ envBase.stopDuring = none
    ∧ (∃ r : StepRes, convergeStep envBase [fileA] 1 stBase
        = Except.ok (restTag 1 (stepAnalysis envBase stBase) r)) := by
  obtain ⟨r, h1, h2, h3⟩ := claim_C1 envBase [fileA] 1 stBase rfl rfl
    (fun k => ⟨some "y", rfl⟩)
  exact ⟨rfl, rfl, r, h1⟩

/-- C1 counterexample: under `envC1` the first analysis reports quality 95
with a clean vibe (and one failing finding), yet the build performs a
refactor pass after it (one refactor call) before ending COMPLETED without
re-analysing — against the claim's "the very next transition is to Completed
with no further refactor pass". -/
theorem claim_C1_counterexample :
    (stepAnalysis envC1 stBase).qualityScore ≥ 95
    ∧ (stepAnalysis envC1 stBase).vibeCheck.degraded = false
    ∧ isOkE (runMarathon envC1 "goal" emptyApp) = true
    ∧ (stOf (runMarathon envC1 "goal" emptyApp)).analysisCalls = 1
    ∧ (stOf (runMarathon envC1 "goal" emptyApp)).refactorCalls = 1
    ∧ (stOf (runMarathon envC1 "goal" emptyApp)).app.state.status
        = AgentStatus.COMPLETED :=
  ⟨by decide, by decide, by decide, by decide, by decide, by decide⟩

/-- C2: every marathon run makes at most `MAX_ITERATIONS = 3` analysis
passes and ends with the `iteration` field at most `MAX_ITERATIONS`; and
without a STOP click every normal return — a budget-exhaustion exit of the
converge loop included — ends with status COMPLETED, never FAILED. -/
theorem claim_C2 (env : Env) (p : String) (prev : AppState) :
    (stOf (runMarathon env p prev)).analysisCalls ≤ MAX_ITERATIONS
    ∧ (stOf (runMarathon env p prev)).app.state.iteration ≤ MAX_ITERATIONS
    ∧ (env.stopDuring = none → isOkE (runMarathon env p prev) = true →
        (stOf (runMarathon env p prev)).app.state.status = AgentStatus.COMPLETED) := by
  have hf := runMarathon_facts env p prev
  cases hres : runMarathon env p prev with
  | ok s =>
    rw [hres] at hf
    exact ⟨hf.1, hf.2.1, fun hd _ => runMarathon_ok_status env p prev s hd hres⟩
  | error e =>
    obtain ⟨m, s⟩ := e
    rw [hres] at hf
    exact ⟨hf.1, hf.2.1, fun _ hok => by simp [isOkE] at hok⟩

/-- Witness for C2 at concrete inputs: the all-analyses-fail environment,
whose run exhausts the iteration budget and still ends COMPLETED. -/
theorem claim_C2_witness :
    (stOf (runMarathon envC5 "g" emptyApp)).analysisCalls ≤ MAX_ITERATIONS
    ∧ (stOf (runMarathon envC5 "g" emptyApp)).app.state.iteration ≤ MAX_ITERATIONS
    ∧ (stOf (runMarathon envC5 "g" emptyApp)).app.state.status
        = AgentStatus.COMPLETED := by
  obtain ⟨h1, h2, h3⟩ := claim_C2 envC5 "g" emptyApp
  exact ⟨h1, h2, h3 rfl (by decide)⟩

/-! ### Claims C3, C4, C5 -/

/-- C3 (corrected): a cancellation unwind does reach the Stopped state — on a
`MErr.stopped` exit the abort flag was observed set, the recorded phase is
STOPPED, and the catch logs "Process halted." at `warning` (never `error`)
and appends the stop notice. (The discard conjunct of the claim is refuted
separately: the in-flight generation result is still committed.) -/
theorem claim_C3 (env : Env) (p : String) (prev : AppState) (s : St)
    (h : runMarathon env p prev = Except.error (MErr.stopped, s)) :
    s.stopped = true
    ∧ s.app.state.status = AgentStatus.STOPPED
    ∧ handleStartMarathon env p prev =
        pushMsg Role.agent "Process stopped."
          (pushLog "Process halted." Severity.warning s.app) := by
  have hf := runMarathon_facts env p prev
  rw [h] at hf
  obtain ⟨-, -, -, hinv, hstp⟩ := hf
  have hflag := hstp rfl
  exact ⟨hflag, hinv hflag, by simp only [handleStartMarathon, h]⟩

/-- Witness for C3 at concrete inputs: the STOP click lands during the first
generation call; the run exits with the cancellation error and the Stopped
phase. -/
theorem claim_C3_witness :
    runMarathon envC3gen "g" emptyApp
      = Except.error (MErr.stopped, stOf (runMarathon envC3gen "g" emptyApp))
    ∧ (stOf (runMarathon envC3gen "g" emptyApp)).stopped = true
    ∧ (stOf (runMarathon envC3gen "g" emptyApp)).app.state.status
        = AgentStatus.STOPPED := by
  have h : runMarathon envC3gen "g" emptyApp
      = Except.error (MErr.stopped, stOf (runMarathon envC3gen "g" emptyApp)) := by rfl
  obtain ⟨h1, h2, h3⟩ := claim_C3 envC3gen "g" emptyApp _ h
  exact ⟨h, h1, h2⟩

/-- C3 counterexample: the STOP click lands while the first generation call
is in flight (the abort flag is set during that await), yet the call's
result is still committed — the final `files` hold the generated content
with status `created` — against the claim's "its result is discarded and no
further state mutation occurs". -/
theorem claim_C3_counterexample :
    envC3gen.stopDuring = some 1
    ∧ (stOf (runMarathon envC3gen "g" emptyApp)).stopped = true
    ∧ (stOf (runMarathon envC3gen "g" emptyApp)).app.state.files.map
        (fun f => f.content) = ["x"]
    ∧ (stOf (runMarathon envC3gen "g" emptyApp)).app.state.files.map
        (fun f => f.status) = [FileStatus.created] :=
  ⟨rfl, by decide, by decide, by decide⟩

/-- C4 (corrected): every non-cancellation collaborator failure that reaches
the marathon's catch — plan, converge-refactor or report — sets the phase to
FAILED, logs the failure at `error` and appends the generic agent-facing
failure message. (A refinement-turn failure is the exception, refuted
separately: its catch resets the phase to IDLE.) -/
theorem claim_C4 (env : Env) (p : String) (prev : AppState) (msg : String) (s : St)
    (h : runMarathon env p prev = Except.error (MErr.service msg, s)) :
    (handleStartMarathon env p prev).state.status = AgentStatus.FAILED
    ∧ (handleStartMarathon env p prev).state.logs
        = s.app.state.logs ++ [⟨"FAILURE: " ++ msg, Severity.error⟩]
    ∧ (handleStartMarathon env p prev).messages
        = s.app.messages ++ [⟨Role.agent, "I encountered a critical error."⟩] := by
  simp only [handleStartMarathon, h]
  exact ⟨rfl, rfl, rfl⟩

/-- Witness for C4 at concrete inputs: the plan call rejects and the build
ends FAILED. -/
theorem claim_C4_witness :
    runMarathon envPlanFail "g" emptyApp
      = Except.error (MErr.service "plan down", stOf (runMarathon envPlanFail "g" emptyApp))
    ∧ (handleStartMarathon envPlanFail "g" emptyApp).state.status
        = AgentStatus.FAILED := by
  have h : runMarathon envPlanFail "g" emptyApp
      = Except.error (MErr.service "plan down",
          stOf (runMarathon envPlanFail "g" emptyApp)) := by rfl
  exact ⟨h, (claim_C4 envPlanFail "g" emptyApp "plan down" _ h).1⟩

/-- C4 counterexample: a collaborator failure during a refinement turn — not
a cancellation — leaves the phase at IDLE, not FAILED (the refinement catch
resets the status to IDLE), against the claim's "it never leaves the phase
at Idle ... after such a failure". The failure is still logged at `error`. -/
theorem claim_C4_counterexample :
    (handleRefinement (Except.error "refine down") false
        (Except.ok ⟨[], 100, some okVibe⟩) "req" snapDone appDone).state.status
      = AgentStatus.IDLE
    ∧ LogEntry.mk "Refinement failed: refine down" Severity.error ∈
        (handleRefinement (Except.error "refine down") false
          (Except.ok ⟨[], 100, some okVibe⟩) "req" snapDone appDone).state.logs :=
  ⟨by decide, by decide⟩

/-- C5: a generation failure is absorbed as the placeholder comment and an
analysis failure as the empty, zero-score, non-degraded result; with every
analysis call failing the build still runs to the end — quality stays 0,
results stay empty, the loop exhausts with the `iteration` field at
`MAX_ITERATIONS` and the run ends COMPLETED with the "Max iterations
reached." warning logged, never FAILED. -/
theorem claim_C5 :
    (∀ fn e, generateFileContent fn (Except.error e)
        = "// Error generating content for " ++ fn)
    ∧ (∀ e, runAutonomousTests (Except.error e)
        = ⟨[], 0, ⟨false, "Error running checks"⟩⟩)
    ∧ isOkE (runMarathon envC5 "g" emptyApp) = true
    ∧ (stOf (runMarathon envC5 "g" emptyApp)).app.state.qualityScore = 0
    ∧ (stOf (runMarathon envC5 "g" emptyApp)).app.state.testResults = []
    ∧ (stOf (runMarathon envC5 "g" emptyApp)).app.state.iteration = MAX_ITERATIONS
    ∧ (stOf (runMarathon envC5 "g" emptyApp)).app.state.status = AgentStatus.COMPLETED
    ∧ maxIterLog ∈ (stOf (runMarathon envC5 "g" emptyApp)).app.state.logs :=
  ⟨fun fn e => rfl, fun e => rfl, by decide, by decide, by decide, by decide,
    by decide, by decide⟩

/-! ### Claims C7 and C8 -/

/-- C7 (corrected): a new-build dispatch appends exactly TWO agent-role
responses, not one — the opening acknowledgment plus the outcome message
(mission narrative, stop notice or error notice) — on every path of the
marathon. -/
theorem claim_C7 (env : Env) (p : String) (prev : AppState) :
    agentCount (handleStartMarathon env p prev) = agentCount prev + 2 := by
  have hf := runMarathon_facts env p prev
  cases hres : runMarathon env p prev with
  | ok s =>
    rw [hres] at hf
    obtain ⟨-, -, hmsg, -⟩ := hf
    simp only [handleStartMarathon, hres]
    simp [agentCount, hmsg, List.filter_append, ackMsg, missionMsg]
  | error e =>
    obtain ⟨m, s⟩ := e
    rw [hres] at hf
    obtain ⟨-, -, hmsg, -, -⟩ := hf
    cases m with
    | stopped =>
      simp only [handleStartMarathon, hres]
      rw [agentCount_pushMsg_agent, agentCount_pushLog]
      simp [agentCount, hmsg, List.filter_append, ackMsg]
    | service msg =>
      simp only [handleStartMarathon, hres]
      rw [agentCount_pushMsg_agent, agentCount_setStatus, agentCount_pushLog]
      simp [agentCount, hmsg, List.filter_append, ackMsg]

/-- C7 counterexample: a concrete accepted new-build turn appends two agent
responses, not one; and a concrete accepted refinement turn that is
cancelled while the refine call is in flight appends zero. -/
theorem claim_C7_counterexample :
    agentCount (handleSendMessage dEnvC7 "build it" emptyApp) = 2
    ∧ agentCount emptyApp = 0
    ∧ appDone.state.status = AgentStatus.COMPLETED
    ∧ agentCount (handleSendMessage dEnvStop "tweak" appDone) = agentCount appDone :=
  ⟨by decide, by decide, by decide, by decide⟩

/-- C8: in every refine pass the refactor targets are exactly the first 3
artifacts, in file order, whose content is non-empty and whose language tag
is not "json"; the loop makes one refactor call per target in order, keeps
the artifact-list name column, leaves every untargeted artifact untouched,
and overwrites each target's artifact (located by name) with that target's
refactor-call result at status `verified`. -/
theorem claim_C8 (env : Env) (current : List ProjectFile) (s : St)
    (hs : s.stopped = false) (hd : env.stopDuring = none)
    (hr : ∀ k, ∃ t, env.refactorText k = Except.ok t)
    (hnd : (current.map (fun g => g.name)).Nodup) :
    refactorTargets current = (current.filter fixPred).take 3
    ∧ ∃ s' cur',
        refactorLoop env (refactorTargets current) current s = Except.ok (s', cur')
        ∧ s'.refactorCalls = s.refactorCalls + (refactorTargets current).length
        ∧ cur'.map (fun g => g.name) = current.map (fun g => g.name)
        ∧ (∀ i f, current.get? i = some f →
            (∀ g ∈ refactorTargets current, (g.name == f.name) = false) →
            cur'.get? i = some f)
        ∧ (∀ p g, (refactorTargets current).get? p = some g →
            ∀ i, findIdxO (fun f => f.name == g.name) current = some i →
              cur'.get? i = some (ProjectFile.mk g.name g.language
                (refactorOkContent (env.refactorText (s.refactorCalls + p)) g)
                FileStatus.verified)) := by
  have hsub : (refactorTargets current).Sublist current :=
    List.Sublist.trans (List.take_sublist _ _) (List.filter_sublist _)
  have hndt : ((refactorTargets current).map (fun g => g.name)).Nodup :=
    List.Nodup.sublist (List.Sublist.map _ hsub) hnd
  exact ⟨rfl, refactorLoop_char env hd hr (refactorTargets current) current s hs hndt⟩

/-- Witness for C8 at concrete inputs: of five artifacts, the json config
and the empty artifact are skipped and the first three refactorable ones are
targeted; a refactored artifact is overwritten at `verified` while skipped
artifacts are untouched. -/
theorem claim_C8_witness :
    refactorTargets filesC8 =
      [ProjectFile.mk "a.ts" "ts" "ax" FileStatus.created,
       ProjectFile.mk "c.ts" "ts" "cx" FileStatus.created,
       ProjectFile.mk "d.ts" "ts" "dx" FileStatus.created]
    ∧ ∃ s' cur',
        refactorLoop envC8 (refactorTargets filesC8) filesC8 stC8 = Except.ok (s', cur')
        ∧ s'.refactorCalls = 3
        ∧ cur'.get? 1 = some (ProjectFile.mk "a.ts" "ts" "y" FileStatus.verified)
        ∧ cur'.get? 0 = some (ProjectFile.mk "cfg.json" "json" "x" FileStatus.created)
        ∧ cur'.get? 2 = some (ProjectFile.mk "b.ts" "ts" "" FileStatus.created) := by
  obtain ⟨-, s', cur', heq, hrc, hnames, hun, htg⟩ :=
    claim_C8 envC8 filesC8 stC8 rfl rfl (fun k => ⟨some "y", rfl⟩) (by decide)
  refine ⟨by decide, s', cur', heq, ?_, ?_, ?_, ?_⟩
  · rw [hrc]
    decide
  · have h := htg 0 (ProjectFile.mk "a.ts" "ts" "ax" FileStatus.created) (by decide) 1 (by decide)
    rw [h]
    decide
  · exact hun 0 (ProjectFile.mk "cfg.json" "json" "x" FileStatus.created) (by decide) (by decide)
  · exact hun 2 (ProjectFile.mk "b.ts" "ts" "" FileStatus.created) (by decide) (by decide)
